import Mathlib

/-!
# Local online judge: judging pipeline of `server.js`

A shallow embedding of the submission handler (`POST /contest/:cid/problem/:pid/submit`),
of `runProcess`, of the scoreboard route (`GET /contests/:id/scoreboard`) and of
`matchPairs`, followed by the properties of the verdict classification, the reduction to a
submission verdict, the score, the persisted per-test records, the database writes of the
judging task, the kill timer, the scoreboard cells, totals, ranking and penalty text, and
the pairing of fixture files.

Conventions of the embedding.
* A JavaScript string is a list of code points. All texts handled here come from
  `Buffer.toString()` / `readFileSync(_, 'utf8')` / `String(err)`, hence are well formed.
* A JavaScript number is modelled by the rational it denotes (`runtime_ms`) or by an
  integer (database columns, timestamps, scores, seconds); `Math.floor` of a quotient of
  integers by a positive constant is the integer division rounding down. The one inexact
  product of the code, `timelimitMs * 1.1`, is computed as the double product.
* A rejected `pool.query` writes nothing.
* `await runProcess(...)` is modelled by the value it yields: `Except.ok` of the resolved
  object, `Except.error` of the text `String(e)` of a rejection.
-/

namespace LocalOJ

/-! ## JavaScript strings -/

/-- A JavaScript string, as the list of its code points. -/
abbrev JsString := List Char

/-- The code points removed by `String.prototype.trim`: ECMAScript `WhiteSpace`
(TAB, VT, FF, SP, NBSP, ZWNBSP and the category Zs) and `LineTerminator`
(LF, CR, LS, PS). -/
def isTrimSpace (c : Char) : Bool :=
  let n := c.toNat
  n == 0x09 || n == 0x0A || n == 0x0B || n == 0x0C || n == 0x0D || n == 0x20 ||
  n == 0xA0 || n == 0x1680 || (0x2000 ≤ n && n ≤ 0x200A) || n == 0x2028 || n == 0x2029 ||
  n == 0x202F || n == 0x205F || n == 0x3000 || n == 0xFEFF

/-- The method `s.trim()`: drop the leading and the trailing run of trim-space code points. -/
def jsTrim (s : JsString) : JsString :=
  ((s.dropWhile isTrimSpace).reverse.dropWhile isTrimSpace).reverse

/-- The call `s.replace(/\r/g, '')`: delete every carriage return. -/
def removeCR (s : JsString) : JsString :=
  s.filter (fun c => c != '\r')

/-- Truthiness of a string: non-empty. -/
def strTruthy (s : JsString) : Bool := !s.isEmpty

/-- The expression `s || d` on strings. -/
def strOr (s d : JsString) : JsString := if strTruthy s then s else d

/-! ## Verdicts and run results -/

/-- The verdict / status strings used by the server. -/
inductive Verdict
  | AC | WA | TLE | RE | CE | SystemError | judging
  deriving DecidableEq, Repr

/-- The object resolved by `runProcess`. -/
structure RunResult where
  code : Option Int
  stdout : JsString
  stderr : JsString
  runtime_ms : ℚ
  timedOut : Bool
  signal : Option JsString
  deriving DecidableEq

/-- One element of `perTest` (serialised into `result_json`): it has no stdout field. -/
structure PerTest where
  index : Nat
  verdict : Verdict
  runtime_ms : ℚ
  stderr : JsString
  deriving DecidableEq

/-! ## `runProcess` -/

/-- What can happen to a spawned child before the promise settles. -/
inductive ProcEvent
  /-- Handler `child.stdout.on('data', d)`, with `d.toString()`. -/
  | stdoutData (d : JsString)
  /-- Handler `child.stderr.on('data', d)`, with `d.toString()`. -/
  | stderrData (d : JsString)
  /-- An `'error'` on one of the child streams: `err.code` (if any) and `String(err)`. -/
  | streamError (code : Option JsString) (text : JsString)
  /-- The `killer` timeout callback runs. -/
  | killerFired
  deriving DecidableEq

/-- The mutable locals `stdout`, `stderr`, `timedOut` of `runProcess`. -/
structure ProcState where
  stdout : JsString
  stderr : JsString
  timedOut : Bool
  deriving DecidableEq

/-- The locals right after a successful `spawn`. -/
def ProcState.init : ProcState := { stdout := [], stderr := [], timedOut := false }

/-- Effect of one event handler on the locals. -/
def ProcState.step (s : ProcState) : ProcEvent → ProcState
  | .stdoutData d => { s with stdout := s.stdout ++ d }
  | .stderrData d => { s with stderr := s.stderr ++ d }
  | .streamError code text =>
    match code with
    | some c =>
      if strTruthy c && c != "EPIPE".toList then
        { s with stderr := s.stderr ++ "\n[stream error] ".toList ++ text }
      else s
    | none => s
  | .killerFired => { s with timedOut := true }

/-- How the promise of `runProcess` settles. -/
inductive Settle
  /-- The call `spawn(cmd, args, ...)` throws `err`; `text = String(err)`. -/
  | spawnThrew (text : JsString) (runtime_ms : ℚ)
  /-- The handler `child.on('error', err)`; `text = String(err)`. -/
  | childError (text : JsString) (runtime_ms : ℚ)
  /-- The handler `child.on('close', code, signal)`. -/
  | close (code : Option Int) (signal : Option JsString) (runtime_ms : ℚ)
  deriving DecidableEq

/-- The function `runProcess(cmd, args, input, timelimitMs)`: the object it resolves with,
given the events seen before settling and the settling event. When `spawn` throws no
event handler was attached, so the events are ignored. -/
def runProcess (timelimitMs : Int) (events : List ProcEvent) : Settle → RunResult
  | .spawnThrew text runtime_ms =>
    { code := none, stdout := [], stderr := text, runtime_ms := runtime_ms,
      timedOut := false, signal := none }
  | .childError text runtime_ms =>
    let s := events.foldl ProcState.step ProcState.init
    { code := none, stdout := s.stdout, stderr := text, runtime_ms := runtime_ms,
      timedOut := s.timedOut, signal := none }
  | .close code signal runtime_ms =>
    let s := events.foldl ProcState.step ProcState.init
    let timedOut := if runtime_ms > (timelimitMs : ℚ) then true else s.timedOut
    { code := code, stdout := s.stdout, stderr := s.stderr, runtime_ms := runtime_ms,
      timedOut := timedOut, signal := signal }

/-! ## Per-test classification -/

/-- The text compared by the judge: `String(x || '').replace(/\r/g, '').trim()`. -/
def normalizeOut (x : JsString) : JsString :=
  jsTrim (removeCR (strOr x []))

/-- Lines 451-460: the verdict of one run against the expected output. -/
def classifyRun (resObj : RunResult) (expected : JsString) : Verdict :=
  if resObj.timedOut then .TLE
  else if strTruthy (jsTrim (strOr resObj.stderr [])) then .RE
  else
    let got := normalizeOut resObj.stdout
    let want := normalizeOut expected
    if got ≠ want then .WA else .AC

/-- Line 461: the record pushed for a run that resolved. -/
def perTestOfRun (i : Nat) (resObj : RunResult) (expected : JsString) : PerTest :=
  { index := i + 1, verdict := classifyRun resObj expected,
    runtime_ms := resObj.runtime_ms, stderr := strOr resObj.stderr [] }

/-! ## The test loop and the reduction -/

/-- What the judge observes for one test case: the two fixture reads (`none` when
`readFileSync` throws) and the answer of the process runner to
`runProcess(cmd, args, inputData, timelimit)`. -/
structure TestEnv where
  inputFile : Option JsString
  outputFile : Option JsString
  run : JsString → List JsString → JsString → Int → Except JsString RunResult

/-- The values the test loop reads from its surroundings. -/
structure JudgeCtx where
  language : JsString
  /-- Path of the compiled binary (`binPath`), passed when the language is `cpp`. -/
  exePath : JsString
  srcFile : JsString
  /-- Column `problem.timelimit_ms`. -/
  timelimit_ms : Int
  /-- Column `problem.score`. -/
  score : Int

/-- The locals `perTest`, `allPassed`, `maxRuntime` of the test loop. -/
structure LoopState where
  perTest : List PerTest
  allPassed : Bool
  maxRuntime : ℚ

/-- The locals before the loop (lines 414-416). -/
def LoopState.init : LoopState := { perTest := [], allPassed := true, maxRuntime := 0 }

/-- The expression `problem.timelimit_ms || 2000`. -/
def effTimelimit (ctx : JudgeCtx) : Int :=
  if ctx.timelimit_ms ≠ 0 then ctx.timelimit_ms else 2000

/-- Lines 434-448: the language dispatch of one iteration. `none` is the branch that
records `Unsupported language` without calling the runner. -/
def dispatch (ctx : JudgeCtx) (t : TestEnv) (inputData : JsString) :
    Option (Except JsString RunResult) :=
  if ctx.language = "cpp".toList then
    some (t.run ctx.exePath [] inputData (effTimelimit ctx))
  else if ctx.language = "python".toList then
    some (t.run "python3".toList [ctx.srcFile] inputData (effTimelimit ctx))
  else none

/-- One iteration of the test loop (lines 418-461) for the test at 0-based position `i`. -/
def loopBody (ctx : JudgeCtx) (i : Nat) (t : TestEnv) (st : LoopState) : LoopState :=
  let inputData := t.inputFile.getD []
  let expected := t.outputFile.getD []
  match dispatch ctx t inputData with
  | none =>
    { st with
      perTest := st.perTest ++ [{ index := i + 1, verdict := .SystemError, runtime_ms := 0,
                                  stderr := "Unsupported language".toList }]
      allPassed := false }
  | some (.error e) =>
    { st with
      perTest := st.perTest ++ [{ index := i + 1, verdict := .SystemError, runtime_ms := 0,
                                  stderr := e }]
      allPassed := false }
  | some (.ok resObj) =>
    let verdict := classifyRun resObj expected
    { perTest := st.perTest ++ [perTestOfRun i resObj expected]
      allPassed := st.allPassed && verdict == .AC
      maxRuntime := max st.maxRuntime resObj.runtime_ms }

/-- The loop `for (let i = 0; i < tests.length; i++)`, started at index `i` on the tests
from position `i` on. -/
def testLoop (ctx : JudgeCtx) : Nat → List TestEnv → LoopState → LoopState
  | _, [], st => st
  | i, t :: ts, st => testLoop ctx (i + 1) ts (loopBody ctx i t st)

/-- The array `perTest` when the loop over `tests` has completed. -/
def runTests (ctx : JudgeCtx) (tests : List TestEnv) : List PerTest :=
  (testLoop ctx 0 tests LoopState.init).perTest

/-- The test `perTest.every(r => r.verdict === 'AC')`. -/
def everyAC (perTest : List PerTest) : Bool :=
  perTest.all (fun r => r.verdict == .AC)

/-- The expression `problem.score || 100`. -/
def effScore (score : Int) : Int := if score ≠ 0 then score else 100

/-- Line 464: `finalScore`. -/
def finalScore (score : Int) (perTest : List PerTest) : Int :=
  if everyAC perTest then effScore score else 0

/-- Line 465: `finalStatus`. -/
def finalStatus (perTest : List PerTest) : Verdict :=
  if everyAC perTest then .AC
  else if (perTest.find? (fun r => r.verdict == .TLE)).isSome then .TLE
  else if (perTest.find? (fun r => r.verdict == .RE)).isSome then .RE
  else .WA

/-- The status and score written by the `UPDATE` of line 466 for a submission whose
test loop ran over `tests`. -/
def judgeTests (ctx : JudgeCtx) (tests : List TestEnv) : Verdict × Int :=
  let perTest := runTests ctx tests
  (finalStatus perTest, finalScore ctx.score perTest)

/-! ## Specification-side definitions -/

/-- Normalisation in the words of the specification: strip all carriage-return characters,
then trim leading and trailing whitespace. -/
def specNormalize (s : JsString) : JsString :=
  jsTrim (s.filter (fun c => decide (c ≠ '\r')))

/-- The relation `WsVariant s t`: the text `t` is obtained from `s` by any number of the
edits: put a whitespace character in front, put one at the end, insert a carriage return
at some position. -/
inductive WsVariant : JsString → JsString → Prop
  | same (s : JsString) : WsVariant s s
  | leading (c : Char) (s t : JsString) :
      isTrimSpace c = true → WsVariant s t → WsVariant s (c :: t)
  | trailing (c : Char) (s t : JsString) :
      isTrimSpace c = true → WsVariant s t → WsVariant s (t ++ [c])
  | insertCR (s a b : JsString) : WsVariant s (a ++ b) → WsVariant s (a ++ '\r' :: b)

/-! ## The judging task and its database writes -/

/-- A write of the judging task that reached the database: the `UPDATE submissions SET
status=?, score=? ...` statements and the `INSERT INTO attempts` statements. -/
inductive DbWrite
  | updateStatus (status : Verdict) (score : Int)
  | insertAttempt (is_ac : Bool) (is_compile_error : Bool)
  deriving DecidableEq

/-- Which of the awaited `pool.query` calls of the judging task reject (`true`: the call
rejects and writes nothing). -/
structure DbFaults where
  /-- The `UPDATE` of the try block (line 406 on a compile error, line 466 otherwise). -/
  tryUpdate : Bool
  /-- The `INSERT INTO attempts` of the try block (line 408 or line 468). -/
  tryInsert : Bool
  /-- The `UPDATE` of the catch block (line 472). -/
  catchUpdate : Bool
  /-- The `INSERT INTO attempts` of the catch block (line 473). -/
  catchInsert : Bool

/-- How lines 380-403 end: something throws (creating the work directory, writing the
source file, spawning the compiler), or the compiler exits with a nonzero code, or the
submission is ready to be run. -/
inductive Setup
  | threw (e : JsString)
  | compileError (compileOutput : JsString)
  | ready
  deriving DecidableEq

/-- The catch block (lines 470-475): the writes it performs. -/
def catchBlock (f : DbFaults) : List DbWrite :=
  if f.catchUpdate then []
  else .updateStatus .SystemError 0 ::
    (if f.catchInsert then [] else [.insertAttempt false false])

/-- The asynchronous judging task (lines 378-476): the database writes it performs, in
order. A rejected query inside the try block transfers control to the catch block. -/
def judgeTask (setup : Setup) (ctx : JudgeCtx) (tests : List TestEnv) (f : DbFaults) :
    List DbWrite :=
  match setup with
  | .threw _ => catchBlock f
  | .compileError _ =>
    if f.tryUpdate then catchBlock f
    else .updateStatus .CE 0 ::
      (if f.tryInsert then catchBlock f else [.insertAttempt false true])
  | .ready =>
    let perTest := runTests ctx tests
    if f.tryUpdate then catchBlock f
    else .updateStatus (finalStatus perTest) (finalScore ctx.score perTest) ::
      (if f.tryInsert then catchBlock f
       else [.insertAttempt (decide (finalScore ctx.score perTest > 0)) false])

/-- The statuses written to the submission row, in order. -/
def statusWrites : List DbWrite → List Verdict
  | [] => []
  | .updateStatus status _ :: rest => status :: statusWrites rest
  | .insertAttempt _ _ :: rest => statusWrites rest

/-! ## The kill timer -/

/-- The number `P`, read as the exact value `P / 2^52`, rounded to a multiple of `2^s`: to
the nearest one, and to the one with an even quotient on a tie (IEEE 754 round to nearest,
ties to even). -/
def roundShift (P s : Nat) : Nat :=
  let m := P / 2 ^ s
  let r := P % 2 ^ s
  if 2 * r > 2 ^ s ∨ (2 * r = 2 ^ s ∧ m % 2 = 1) then (m + 1) * 2 ^ s else m * 2 ^ s

/-- The least shift `s`, searched from `s` on, for which `P / 2^s` fits the 53 bits of the
significand of a double. -/
def findShift (P : Nat) : Nat → Nat → Nat
  | 0, s => s
  | fuel + 1, s => if P / 2 ^ s < 2 ^ 53 then s else findShift P fuel (s + 1)

/-- The literal `1.1` as a double: `4953959590107546 / 2^52`. -/
def onePointOne : Nat := 4953959590107546

/-- The double `timelimitMs * 1.1`, as the integer `2^52` times its value, for an integer
`timelimitMs` that is a double: the exact product with the double `1.1`, rounded to 53
significant bits (the fuel covers every finite double). -/
def timesOnePointOne (timelimitMs : Int) : Int :=
  timelimitMs.sign *
    (roundShift (timelimitMs.natAbs * onePointOne)
      (findShift (timelimitMs.natAbs * onePointOne) 1100 0) : Nat)

/-- Line 518, for a numeric `timelimitMs`: `Math.max(1, Math.floor(timelimitMs * 1.1))`, with
the double product of `timesOnePointOne`; the floor of `x / 2^52` is the integer division
rounding down. -/
def killAfter (timelimitMs : Int) : Int :=
  max 1 (timesOnePointOne timelimitMs / 2 ^ 52)

/-! ## Scoreboard -/

/-- The conversion `String(n)` for a natural number: its decimal digits. -/
def jsNatStr (n : Nat) : JsString := Nat.toDigits 10 n

/-- The conversion `String(i)` for an integer. -/
def jsIntStr (i : Int) : JsString :=
  if i < 0 then '-' :: jsNatStr i.natAbs else jsNatStr i.natAbs

/-- A row of `submissions` as the scoreboard reads it. -/
structure Submission where
  /-- Truthiness of the column `compile_error`. -/
  compile_error : Bool
  status : Verdict
  created_ts : Int
  deriving DecidableEq

/-- A row of `problems` joined with `contest_problems`. -/
structure Problem where
  id : Nat
  score : Int
  deriving DecidableEq

/-- The values of the field `status` of a cell. -/
inductive CellStatus
  | no_submit | tried_no_ac | ac
  deriving DecidableEq, Repr

/-- One element of `perProblemCells`. -/
structure Cell where
  display : JsString
  score : Int
  tries : Nat
  status : CellStatus
  deriving DecidableEq

/-- The loop of lines 650-662 over the remaining submissions, with the current value of
`triesBeforeAc`: it returns `firstAc` and `triesBeforeAc`. -/
def scanSubs : List Submission → Nat → Option Submission × Nat
  | [], tries => (none, tries)
  | s :: rest, tries =>
    if s.compile_error then scanSubs rest tries
    else if s.status = .AC then (some s, tries)
    else scanSubs rest (tries + 1)

/-- The locals `totalScore`, `totalPenaltySeconds`, `perProblemCells` of one user. -/
structure RowState where
  totalScore : Int
  totalPenaltySeconds : Int
  perProblemCells : List Cell
  deriving DecidableEq

/-- The locals before the loop over the problems (lines 636-638). -/
def RowState.init : RowState :=
  { totalScore := 0, totalPenaltySeconds := 0, perProblemCells := [] }

/-- The expression `p.score || 0`. -/
def cellScore (p : Problem) : Int := if p.score ≠ 0 then p.score else 0

/-- Line 672: `Math.max(0, Math.floor((firstAcTs - contest.start_ts) / 1000))`, on integer
timestamps in milliseconds. -/
def secondsToAc (start_ts firstAcTs : Int) : Int :=
  max 0 ((firstAcTs - start_ts) / 1000)

/-- One iteration of the loop over the problems (lines 640-679), for the problem `p` and
the submissions `subs` returned by the query of line 641. -/
def problemStep (start_ts : Int) (st : RowState) (p : Problem) (subs : List Submission) :
    RowState :=
  if subs.length = 0 then
    { st with perProblemCells := st.perProblemCells ++
        [{ display := "-".toList, score := 0, tries := 0, status := .no_submit }] }
  else
    match scanSubs subs 0 with
    | (none, _) =>
      let anyNonCE := subs.any (fun s => !s.compile_error)
      let tries := if anyNonCE then (subs.filter (fun s => !s.compile_error)).length else 0
      { st with perProblemCells := st.perProblemCells ++
          [{ display := "(TRIES)".toList, score := 0, tries := tries,
             status := .tried_no_ac }] }
    | (some firstAc, triesBeforeAc) =>
      let problemScore := cellScore p
      let secs := secondsToAc start_ts firstAc.created_ts
      let wrongCount := triesBeforeAc
      let showTries := wrongCount > 0
      let disp := if showTries then
          jsIntStr problemScore ++ " (".toList ++ jsNatStr wrongCount ++ ")".toList
        else jsIntStr problemScore
      { totalScore := st.totalScore + problemScore
        totalPenaltySeconds := st.totalPenaltySeconds + (secs + (wrongCount : Int) * 5 * 60)
        perProblemCells := st.perProblemCells ++
          [{ display := disp, score := problemScore, tries := wrongCount, status := .ac }] }

/-- An element of `scoreboard`; `totalPenaltyDisplay` is set by the loop of lines 697-702. -/
structure Row where
  user : Nat
  totalScore : Int
  totalPenaltySeconds : Int
  perProblemCells : List Cell
  totalPenaltyDisplay : Option JsString
  deriving DecidableEq

/-- The loop over the problems for one user; `query p` is the result of the query of
line 641 for this user and the problem `p`. -/
def rowState (start_ts : Int) (problems : List Problem) (query : Problem → List Submission) :
    RowState :=
  problems.foldl (fun st p => problemStep start_ts st p (query p)) RowState.init

/-- Lines 635-688: the row pushed for the user `u`. -/
def rowOf (start_ts : Int) (problems : List Problem)
    (query : Nat → Problem → List Submission) (u : Nat) : Row :=
  let st := rowState start_ts problems (query u)
  { user := u, totalScore := st.totalScore, totalPenaltySeconds := st.totalPenaltySeconds,
    perProblemCells := st.perProblemCells, totalPenaltyDisplay := none }

/-- The comparator of line 691. -/
def rowCompare (a b : Row) : Int :=
  if b.totalScore ≠ a.totalScore then b.totalScore - a.totalScore
  else a.totalPenaltySeconds - b.totalPenaltySeconds

/-- The order induced by the comparator: `a` may stay before `b`. -/
def rowLE (a b : Row) : Prop := rowCompare a b ≤ 0

/-- Decidability of the order of the rows. -/
def rowLE.decidable : DecidableRel rowLE := fun a b => Int.decLe (rowCompare a b) 0

/-- The call `scoreboard.sort(cmp)`: `Array.prototype.sort` is a stable sort for a
consistent comparator; it is realised here by stable insertion. -/
def sortRows (rows : List Row) : List Row :=
  @List.insertionSort Row rowLE rowLE.decidable rows

/-- The method `s.padStart(2, '0')`. -/
def padStart2 (s : JsString) : JsString :=
  List.replicate (2 - s.length) '0' ++ s

/-- Lines 698-701: the text `totalPenaltyDisplay`. `Math.floor(s / 60)` is the integer
division rounding down and `s % 60` has the sign of `s`. -/
def penaltyDisplay (totalPenaltySeconds : Int) : JsString :=
  let s := if totalPenaltySeconds ≠ 0 then totalPenaltySeconds else 0
  let mm := s / 60
  let ss := Int.tmod s 60
  padStart2 (jsIntStr mm) ++ ":".toList ++ padStart2 (jsIntStr ss)

/-- Lines 619-705: the array `scoreboard` passed to the template. -/
def scoreboardOf (start_ts : Int) (problems : List Problem) (users : List Nat)
    (query : Nat → Problem → List Submission) : List Row :=
  (sortRows (users.map (rowOf start_ts problems query))).map
    (fun row => { row with totalPenaltyDisplay := some (penaltyDisplay row.totalPenaltySeconds) })

/-! ## Specification-side definitions for the kill timer and the scoreboard -/

/-- The kill delay in the words of the specification: `ceil(timeLimitMs * 1.1)`. -/
def specKillAfter (timelimitMs : Int) : Int := ⌈(timelimitMs : ℚ) * (11 / 10)⌉

/-- A submission that is not a compile error. -/
def isNonCE (s : Submission) : Bool := !s.compile_error

/-- A submission that counts as accepted: not a compile error, with status AC. -/
def isAccepted (s : Submission) : Bool := !s.compile_error && s.status == .AC

/-- The first accepted submission of a list in creation order, if any. -/
def firstAccepted (subs : List Submission) : Option Submission := subs.find? isAccepted

/-- The number of submissions that are not compile errors strictly before the first
accepted one (all of them when none is accepted). -/
def triesBefore (subs : List Submission) : Nat :=
  ((subs.takeWhile (fun s => !isAccepted s)).filter isNonCE).length

/-- The penalty contribution of one problem in the words of the specification: for a solved
problem, the whole seconds from the contest start to the first accepted submission (never
negative) plus 300 seconds per try before it; nothing for an unsolved problem. -/
def specPenalty (start_ts : Int) (subs : List Submission) : Int :=
  match firstAccepted subs with
  | some a => max 0 ⌊((a.created_ts - start_ts : Int) : ℚ) / 1000⌋ + 300 * (triesBefore subs : Int)
  | none => 0

/-- The number of submissions still in state `judging` (and not flagged as compile errors)
before the first accepted submission. -/
def judgingBefore (subs : List Submission) : Nat :=
  ((subs.takeWhile (fun s => !isAccepted s)).filter
    (fun s => isNonCE s && s.status == .judging)).length

/-- The list without the submissions that are still in state `judging`. -/
def dropJudging (subs : List Submission) : List Submission :=
  subs.filter (fun s => s.status != .judging)

/-- The text of a solved cell: the score, followed by the tries in brackets when there
are any. -/
def acDisplay (score : Int) (tries : Nat) : JsString :=
  if tries > 0 then jsIntStr score ++ " (".toList ++ jsNatStr tries ++ ")".toList
  else jsIntStr score

/-- The cell of a problem described from its submissions: empty without submissions,
solved with the tries before the first accepted submission, otherwise tried and not
solved with the number of submissions that are not compile errors. -/
def cellOf (p : Problem) (subs : List Submission) : Cell :=
  if subs = [] then
    { display := "-".toList, score := 0, tries := 0, status := .no_submit }
  else
    match firstAccepted subs with
    | some _ =>
      { display := acDisplay p.score (triesBefore subs), score := p.score,
        tries := triesBefore subs, status := .ac }
    | none =>
      { display := "(TRIES)".toList, score := 0, tries := (subs.filter isNonCE).length,
        status := .tried_no_ac }

/-- What the ranking reads from the locals of one user: the total score, the total
penalty, and the score and tries of every cell. -/
def rankingView (st : RowState) : Int × Int × List (Int × Nat) :=
  (st.totalScore, st.totalPenaltySeconds, st.perProblemCells.map (fun c => (c.score, c.tries)))

/-- The value of a decimal digit character. -/
def digitValue (c : Char) : Nat := c.toNat - 48

/-- The number written by a text of decimal digits (leading zeros allowed). -/
def decimalValue (s : JsString) : Nat :=
  s.foldl (fun acc c => 10 * acc + digitValue c) 0

/-- Reading a rendered penalty back: 60 times the number before the first colon plus the
number after it. -/
def readPenalty (s : JsString) : Nat :=
  60 * decimalValue (s.takeWhile (fun c => c != ':')) +
    decimalValue ((s.dropWhile (fun c => c != ':')).tail)

/-! ## Bulk import: pairing of fixture files -/

/-- The function `path.basename(p)` of Node (POSIX): the last component of the path,
trailing slashes ignored. -/
def pathBasename (p : JsString) : JsString :=
  ((p.reverse.dropWhile (fun c => c == '/')).takeWhile (fun c => c != '/')).reverse

/-- The extension of a path component without slash, as `path.extname` computes it: the
text from the last dot on; empty when there is no dot, when the only dot is the first
character, and for the component `..`. -/
def extOfBase (b : JsString) : JsString :=
  let afterDot := b.reverse.takeWhile (fun c => c != '.')
  match b.reverse.dropWhile (fun c => c != '.') with
  | [] => []
  | _ :: beforeDot =>
    if beforeDot.isEmpty then []
    else if afterDot.isEmpty && beforeDot == ['.'] then []
    else '.' :: afterDot.reverse

/-- The function `path.extname(p)` of Node (POSIX): the extension of the last component. -/
def pathExtname (p : JsString) : JsString := extOfBase (pathBasename p)

/-- The method `s.toLowerCase()`, on the ASCII letters; other characters are kept. -/
def jsToLowerCase (s : JsString) : JsString := s.map Char.toLower

/-- The array `inputExts`. -/
def inputExts : List JsString :=
  [".in".toList, ".inp".toList, ".input".toList, ".txt".toList]

/-- The array `outputExts`. -/
def outputExts : List JsString :=
  [".ans".toList, ".out".toList, ".answer".toList, ".expected".toList, ".txt".toList]

/-- The local `ext` for the file `f`: `path.extname(base).toLowerCase()`. -/
def fileExt (f : JsString) : JsString := jsToLowerCase (pathExtname (pathBasename f))

/-- The local `nameNoExt` for the file `f`: `base.slice(0, base.length - ext.length)`. -/
def nameNoExt (f : JsString) : JsString :=
  (pathBasename f).take ((pathBasename f).length - (fileExt f).length)

/-- A value of the map: `{ inputs: [], outputs: [] }`. -/
structure MapEntry where
  inputs : List JsString
  outputs : List JsString
  deriving DecidableEq

/-- The `Map` of `matchPairs`, as the list of its entries in insertion order. -/
abbrev PairMap := List (JsString × MapEntry)

/-- The method `map.has(k)`. -/
def mapHas (m : PairMap) (k : JsString) : Bool := m.any (fun e => e.1 == k)

/-- One iteration of the first loop of `matchPairs` (lines 774-782). -/
def mapStep (m : PairMap) (f : JsString) : PairMap :=
  let ext := fileExt f
  let k := nameNoExt f
  let m1 := if mapHas m k then m else m ++ [(k, { inputs := [], outputs := [] })]
  m1.map (fun e =>
    if e.1 = k then
      (e.1, { inputs := if inputExts.contains ext then e.2.inputs ++ [f] else e.2.inputs,
              outputs := if outputExts.contains ext then e.2.outputs ++ [f]
                         else e.2.outputs })
    else e)

/-- An element of `pairs`. -/
structure Pair where
  key : JsString
  input : JsString
  output : JsString
  deriving DecidableEq

/-- The inner loop of lines 787-791 for one entry of the map. -/
def pairsOfEntry (key : JsString) (val : MapEntry) : List Pair :=
  val.inputs.filterMap (fun inp =>
    match val.outputs.head? with
    | some out => if strTruthy out then some { key := key, input := inp, output := out }
                  else none
    | none => none)

/-- The loop of lines 786-792 over the entries of the map, in insertion order. -/
def pairsOfMap : PairMap → List Pair
  | [] => []
  | e :: rest => pairsOfEntry e.1 e.2 ++ pairsOfMap rest

/-- The function `matchPairs(files)`. -/
def matchPairs (files : List JsString) : List Pair :=
  pairsOfMap (files.foldl mapStep [])

/-- A file with a recognised input extension. -/
def isInputFile (f : JsString) : Bool := inputExts.contains (fileExt f)

/-- A file with a recognised output extension. -/
def isOutputFile (f : JsString) : Bool := outputExts.contains (fileExt f)

/-- The output candidates of a stem, in list order. -/
def outputCandidates (files : List JsString) (k : JsString) : List JsString :=
  files.filter (fun g => nameNoExt g == k && isOutputFile g)

/-- The input candidates of a stem, in list order. -/
def inputCandidates (files : List JsString) (k : JsString) : List JsString :=
  files.filter (fun g => nameNoExt g == k && isInputFile g)

/-! # Properties

## Auxiliary facts on strings and on the reduction -/

theorem strOr_nil (s : JsString) : strOr s [] = s := by
  cases s <;> simp [strOr, strTruthy]

theorem jsTrim_eq_rdropWhile (s : JsString) :
    jsTrim s = List.rdropWhile isTrimSpace (s.dropWhile isTrimSpace) := rfl

theorem dropWhile_all_iff (s : JsString) :
    (∀ c ∈ s.dropWhile isTrimSpace, isTrimSpace c = true) ↔ ∀ c ∈ s, isTrimSpace c = true := by
  induction s with
  | nil => simp
  | cons a t ih =>
    by_cases h : isTrimSpace a = true
    · simp [List.dropWhile_cons_of_pos h, ih, h]
    · simp [List.dropWhile_cons_of_neg h, h]

theorem jsTrim_eq_nil_iff (s : JsString) :
    jsTrim s = [] ↔ ∀ c ∈ s, isTrimSpace c = true := by
  rw [jsTrim_eq_rdropWhile, List.rdropWhile_eq_nil_iff, dropWhile_all_iff]

theorem strTruthy_jsTrim_iff (s : JsString) :
    strTruthy (jsTrim s) = true ↔ ∃ c ∈ s, isTrimSpace c = false := by
  have h := jsTrim_eq_nil_iff s
  cases hs : jsTrim s with
  | nil =>
    have := h.mp hs
    simp only [strTruthy, List.isEmpty_nil, Bool.not_true, Bool.false_eq_true, false_iff]
    rintro ⟨c, hc, hf⟩
    rw [this c hc] at hf
    exact Bool.noConfusion hf
  | cons a t =>
    simp only [strTruthy, List.isEmpty_cons, Bool.not_false, true_iff]
    by_contra hcon
    push_neg at hcon
    have : jsTrim s = [] := h.mpr (fun c hc => by simpa using hcon c hc)
    rw [hs] at this
    exact List.noConfusion this

theorem everyAC_iff (perTest : List PerTest) :
    everyAC perTest = true ↔ ∀ r ∈ perTest, r.verdict = .AC := by
  simp [everyAC]

theorem find_isSome_iff (perTest : List PerTest) (v : Verdict) :
    (perTest.find? (fun r => r.verdict == v)).isSome = true ↔ ∃ r ∈ perTest, r.verdict = v := by
  simp [List.find?_isSome]

/-! ## C1: reduction to the submission verdict -/

/-- C1. The submission verdict computed from the per-test records is AC exactly when every
per-test verdict is AC (in particular for the empty list); otherwise it is TLE when some
test is TLE, else RE when some test is RE, else WA; it does not depend on the order of the
records. -/
theorem finalStatus_reduction (perTest : List PerTest) :
    (finalStatus perTest = .AC ↔ ∀ r ∈ perTest, r.verdict = .AC) ∧
    finalStatus [] = .AC ∧
    ((∃ r ∈ perTest, r.verdict ≠ .AC) →
      ((∃ r ∈ perTest, r.verdict = .TLE) → finalStatus perTest = .TLE) ∧
      ((¬ ∃ r ∈ perTest, r.verdict = .TLE) → (∃ r ∈ perTest, r.verdict = .RE) →
        finalStatus perTest = .RE) ∧
      ((¬ ∃ r ∈ perTest, r.verdict = .TLE) → (¬ ∃ r ∈ perTest, r.verdict = .RE) →
        finalStatus perTest = .WA)) ∧
    (∀ other : List PerTest, other.Perm perTest → finalStatus other = finalStatus perTest) := by
  have key : ∀ l : List PerTest, finalStatus l =
      if (∀ r ∈ l, r.verdict = .AC) then .AC
      else if (∃ r ∈ l, r.verdict = .TLE) then .TLE
      else if (∃ r ∈ l, r.verdict = .RE) then .RE else .WA := by
    intro l
    unfold finalStatus
    by_cases h1 : everyAC l = true
    · rw [if_pos h1, if_pos ((everyAC_iff l).mp h1)]
    · rw [if_neg h1, if_neg (fun h => h1 ((everyAC_iff l).mpr h))]
      by_cases h2 : (l.find? (fun r => r.verdict == .TLE)).isSome = true
      · rw [if_pos h2, if_pos ((find_isSome_iff l _).mp h2)]
      · rw [if_neg h2, if_neg (fun h => h2 ((find_isSome_iff l _).mpr h))]
        by_cases h3 : (l.find? (fun r => r.verdict == .RE)).isSome = true
        · rw [if_pos h3, if_pos ((find_isSome_iff l _).mp h3)]
        · rw [if_neg h3, if_neg (fun h => h3 ((find_isSome_iff l _).mpr h))]
  refine ⟨?_, by decide, ?_, ?_⟩
  · rw [key]
    constructor
    · intro h
      by_contra hn
      rw [if_neg hn] at h
      split_ifs at h
    · intro h
      rw [if_pos h]
  · rintro ⟨r, hr, hne⟩
    have hn : ¬ ∀ r ∈ perTest, r.verdict = .AC := fun h => hne (h r hr)
    refine ⟨?_, ?_, ?_⟩
    · intro h
      rw [key, if_neg hn, if_pos h]
    · intro h1 h2
      rw [key, if_neg hn, if_neg h1, if_pos h2]
    · intro h1 h2
      rw [key, if_neg hn, if_neg h1, if_neg h2]
  · intro other hp
    rw [key, key]
    have hm : ∀ r, r ∈ other ↔ r ∈ perTest := fun r => hp.mem_iff
    simp only [hm]

/-- C1, instance: the records `[WA, TLE]` reduce to TLE. -/
theorem finalStatus_reduction_witness :
    finalStatus [⟨1, .WA, 3, []⟩, ⟨2, .TLE, 2200, []⟩] = .TLE :=
  ((finalStatus_reduction [⟨1, .WA, 3, []⟩, ⟨2, .TLE, 2200, []⟩]).2.2.1
    ⟨⟨1, .WA, 3, []⟩, by simp, by decide⟩).1
    ⟨⟨2, .TLE, 2200, []⟩, by simp, rfl⟩

/-! ## C2, C3: classification by the error stream and by the output -/

theorem normalizeOut_eq_spec (s : JsString) : normalizeOut s = specNormalize s := by
  unfold normalizeOut specNormalize removeCR
  rw [strOr_nil]
  congr 1
  apply List.filter_congr
  intro c _
  by_cases h : c = '\r' <;> simp [h]

theorem classifyRun_of_blank_stderr (r : RunResult) (expected : JsString)
    (hT : r.timedOut = false) (hE : ∀ c ∈ r.stderr, isTrimSpace c = true) :
    classifyRun r expected =
      if specNormalize r.stdout = specNormalize expected then .AC else .WA := by
  have h2 : ¬ strTruthy (jsTrim (strOr r.stderr [])) = true := by
    rw [strOr_nil, strTruthy_jsTrim_iff]
    rintro ⟨c, hc, hf⟩
    rw [hE c hc] at hf
    exact Bool.noConfusion hf
  unfold classifyRun
  rw [hT, if_neg (by decide), if_neg h2]
  simp only [normalizeOut_eq_spec]
  by_cases h : specNormalize r.stdout = specNormalize expected
  · simp [h]
  · simp [h]

/-- C2 as stated fails: the run below is not timed out and its error stream is the
non-empty text `" "`, yet its verdict is AC, not RE. -/
theorem stderr_nonempty_not_RE :
    (RunResult.mk (some 0) ['1'] [' '] 5 false none).timedOut = false ∧
    (RunResult.mk (some 0) ['1'] [' '] 5 false none).stderr ≠ [] ∧
    classifyRun (RunResult.mk (some 0) ['1'] [' '] 5 false none) ['1'] = .AC ∧
    classifyRun (RunResult.mk (some 0) ['1'] [' '] 5 false none) ['1'] ≠ .RE := by
  decide

/-- C2, amended. A run that is not timed out and whose error stream holds at least one
character that `trim` keeps is RE, whatever stdout and the expected output; when the error
stream holds only characters that `trim` removes, the verdict is decided by the output
comparison, as for an empty error stream. -/
theorem classifyRun_stderr (r : RunResult) (expected : JsString) (hT : r.timedOut = false) :
    ((∃ c ∈ r.stderr, isTrimSpace c = false) → classifyRun r expected = .RE) ∧
    ((∀ c ∈ r.stderr, isTrimSpace c = true) →
      classifyRun r expected =
        if specNormalize r.stdout = specNormalize expected then .AC else .WA) := by
  refine ⟨?_, classifyRun_of_blank_stderr r expected hT⟩
  intro h
  have h2 : strTruthy (jsTrim (strOr r.stderr [])) = true := by
    rw [strOr_nil, strTruthy_jsTrim_iff]; exact h
  unfold classifyRun
  rw [hT, if_neg (by decide), if_pos h2]

/-- C2, instance: a traceback on the error stream gives RE although the output matches. -/
theorem classifyRun_stderr_witness :
    classifyRun { code := some 1, stdout := "42\n".toList, stderr := "Traceback".toList,
                  runtime_ms := 12, timedOut := false, signal := none } "42".toList = .RE :=
  (classifyRun_stderr { code := some 1, stdout := "42\n".toList, stderr := "Traceback".toList,
                        runtime_ms := 12, timedOut := false, signal := none } "42".toList rfl).1
    ⟨'T', by decide, by decide⟩

/-- C3. A run that is not timed out and has an empty error stream is AC when the normalised
stdout equals the normalised expected output and WA otherwise, where normalising removes
every carriage return and then trims leading and trailing whitespace. -/
theorem classifyRun_compare (r : RunResult) (expected : JsString)
    (hT : r.timedOut = false) (hE : r.stderr = []) :
    (specNormalize r.stdout = specNormalize expected → classifyRun r expected = .AC) ∧
    (specNormalize r.stdout ≠ specNormalize expected → classifyRun r expected = .WA) := by
  have h := classifyRun_of_blank_stderr r expected hT (by rw [hE]; simp)
  constructor
  · intro heq
    rw [h, if_pos heq]
  · intro hne
    rw [h, if_neg hne]

/-- C3, instance: stdout `"3 \r\n"` against expected `"3\n"` is AC. -/
theorem classifyRun_compare_witness :
    classifyRun { code := some 0, stdout := "3 \r\n".toList, stderr := [],
                  runtime_ms := 7, timedOut := false, signal := none } "3\n".toList = .AC :=
  (classifyRun_compare { code := some 0, stdout := "3 \r\n".toList, stderr := [],
                         runtime_ms := 7, timedOut := false, signal := none } "3\n".toList
    rfl rfl).1 (by decide)

/-! ## C4: the time limit -/

theorem foldl_step_timedOut (events : List ProcEvent) (s : ProcState) :
    (events.foldl ProcState.step s).timedOut = true ↔
      (s.timedOut = true ∨ ProcEvent.killerFired ∈ events) := by
  induction events generalizing s with
  | nil => simp
  | cons e es ih =>
    rw [List.foldl_cons, ih]
    cases e with
    | stdoutData d => simp [ProcState.step]
    | stderrData d => simp [ProcState.step]
    | streamError code text =>
      cases code with
      | none => simp [ProcState.step]
      | some c =>
        simp only [ProcState.step]
        split_ifs <;> simp
    | killerFired => simp [ProcState.step]

theorem classifyRun_TLE_iff (r : RunResult) (expected : JsString) :
    classifyRun r expected = .TLE ↔ r.timedOut = true := by
  unfold classifyRun
  cases hto : r.timedOut
  · simp only [Bool.false_eq_true, if_false]
    split_ifs <;> simp
  · simp

/-- C4. For a run that ends with the `close` event under time limit `T`, the verdict is TLE
exactly when the kill timer fired or the measured elapsed time exceeds `T`, whatever was
captured on stdout and stderr; for a positive `T`, a run measured at `1.2 * T` is TLE, and
a run measured at `0.5 * T` in which the kill timer did not fire is not TLE. -/
theorem close_TLE_iff (T : Int) (events : List ProcEvent) (code : Option Int)
    (signal : Option JsString) (rt : ℚ) (expected : JsString) :
    (classifyRun (runProcess T events (.close code signal rt)) expected = .TLE ↔
      (ProcEvent.killerFired ∈ events ∨ rt > (T : ℚ))) ∧
    (0 < T → rt = 6 / 5 * (T : ℚ) →
      classifyRun (runProcess T events (.close code signal rt)) expected = .TLE) ∧
    (0 < T → rt = 1 / 2 * (T : ℚ) → ProcEvent.killerFired ∉ events →
      classifyRun (runProcess T events (.close code signal rt)) expected ≠ .TLE) := by
  have key : classifyRun (runProcess T events (.close code signal rt)) expected = .TLE ↔
      (ProcEvent.killerFired ∈ events ∨ rt > (T : ℚ)) := by
    rw [classifyRun_TLE_iff]
    simp only [runProcess]
    by_cases h : rt > (T : ℚ)
    · simp [h]
    · rw [if_neg h, foldl_step_timedOut]
      simp [h, ProcState.init]
  refine ⟨key, ?_, ?_⟩
  · intro hT hrt
    rw [key]
    right
    have hT2 : (0 : ℚ) < (T : ℚ) := by exact_mod_cast hT
    rw [hrt]
    linarith
  · intro hT hrt hk hcon
    have hT2 : (0 : ℚ) < (T : ℚ) := by exact_mod_cast hT
    rcases key.mp hcon with h | h
    · exact hk h
    · rw [hrt] at h
      linarith

/-- C4, instance: limit 1000 ms, the process exits on its own after 1200 ms with the right
answer: TLE. -/
theorem close_TLE_iff_witness :
    classifyRun (runProcess 1000 [.stdoutData ['7']] (.close (some 0) none 1200)) ['7']
      = .TLE :=
  (close_TLE_iff 1000 [.stdoutData ['7']] (some 0) none 1200 ['7']).2.1
    (by decide) (by norm_num)

/-! ## C5: whitespace and carriage returns do not matter -/

theorem jsTrim_cons_space (c : Char) (s : JsString) (h : isTrimSpace c = true) :
    jsTrim (c :: s) = jsTrim s := by
  simp [jsTrim, List.dropWhile_cons_of_pos h]

theorem jsTrim_concat_space (c : Char) (s : JsString) (h : isTrimSpace c = true) :
    jsTrim (s ++ [c]) = jsTrim s := by
  rw [jsTrim_eq_rdropWhile, jsTrim_eq_rdropWhile, List.dropWhile_append]
  by_cases he : (s.dropWhile isTrimSpace).isEmpty = true
  · rw [if_pos he, List.dropWhile_cons_of_pos h]
    rw [List.isEmpty_iff] at he
    simp [he]
  · rw [if_neg he, List.rdropWhile_concat_pos _ _ _ h]

theorem specNormalize_of_variant {s t : JsString} (h : WsVariant s t) :
    specNormalize t = specNormalize s := by
  induction h with
  | same s => rfl
  | leading c s t hc _ ih =>
    rw [← ih]
    unfold specNormalize
    by_cases hcr : c = '\r'
    · simp [hcr]
    · simp only [List.filter_cons, hcr, ne_eq, not_false_eq_true, decide_True, if_true]
      exact jsTrim_cons_space c _ hc
  | trailing c s t hc _ ih =>
    rw [← ih]
    unfold specNormalize
    by_cases hcr : c = '\r'
    · simp [hcr]
    · rw [List.filter_append]
      simp only [List.filter_cons, hcr, ne_eq, not_false_eq_true, decide_True, if_true,
        List.filter_nil]
      exact jsTrim_concat_space c _ hc
  | insertCR s a b _ ih =>
    rw [← ih]
    unfold specNormalize
    simp [List.filter_append]

/-- C5. For a run that is not timed out and has an empty error stream, replacing the
captured stdout and the expected output by texts obtained from them by adding leading or
trailing whitespace and by inserting carriage returns anywhere leaves the per-test verdict
unchanged. -/
theorem classifyRun_ws_invariant (r : RunResult) (stdout2 expected expected2 : JsString)
    (hT : r.timedOut = false) (hE : r.stderr = [])
    (h1 : WsVariant r.stdout stdout2) (h2 : WsVariant expected expected2) :
    classifyRun { r with stdout := stdout2 } expected2 = classifyRun r expected := by
  rw [classifyRun_of_blank_stderr r expected hT (by rw [hE]; simp),
    classifyRun_of_blank_stderr { r with stdout := stdout2 } expected2 hT
      (by show ∀ c ∈ r.stderr, _; rw [hE]; simp)]
  show (if specNormalize stdout2 = specNormalize expected2 then _ else _) = _
  rw [specNormalize_of_variant h1, specNormalize_of_variant h2]

/-- C5, instance: stdout `"12"` against `"12"` and stdout `" 1\r2\n"` against `"12\r\n"`
get the same verdict. -/
theorem classifyRun_ws_invariant_witness :
    classifyRun (RunResult.mk (some 0) [' ', '1', '\r', '2', '\n'] [] 4 false none)
        ['1', '2', '\r', '\n']
      = classifyRun (RunResult.mk (some 0) ['1', '2'] [] 4 false none) ['1', '2'] :=
  classifyRun_ws_invariant (RunResult.mk (some 0) ['1', '2'] [] 4 false none)
    [' ', '1', '\r', '2', '\n'] ['1', '2'] ['1', '2', '\r', '\n'] rfl rfl
    (.trailing '\n' _ [' ', '1', '\r', '2'] (by decide)
      (.leading ' ' _ ['1', '\r', '2'] (by decide) (.insertCR _ ['1'] ['2'] (.same _))))
    (.trailing '\n' _ ['1', '2', '\r'] (by decide)
      (.insertCR _ ['1', '2'] [] (.same _)))

/-! ## C6: score -/

theorem finalStatus_AC_iff (perTest : List PerTest) :
    finalStatus perTest = .AC ↔ everyAC perTest = true := by
  unfold finalStatus
  cases h : everyAC perTest
  · simp only [Bool.false_eq_true, if_false]
    split_ifs <;> simp
  · simp

/-- C6 as stated fails for the score weight 0: a submission whose only test is AC has
verdict AC and is stored with score 100, not with the weight 0. -/
theorem finalScore_weight_zero :
    finalStatus [⟨1, .AC, 3, []⟩] = .AC ∧ finalScore 0 [⟨1, .AC, 3, []⟩] = 100 ∧
    finalScore 0 [⟨1, .AC, 3, []⟩] ≠ 0 := by
  decide

/-- C6, amended. The stored score is the score weight when the submission verdict is AC and
the weight is not 0, it is 100 when the verdict is AC and the weight is 0, and it is 0 when
the verdict is not AC; hence the score is nonzero only if every per-test verdict is AC. -/
theorem finalScore_all_or_nothing (score : Int) (perTest : List PerTest) :
    (finalStatus perTest = .AC → score ≠ 0 → finalScore score perTest = score) ∧
    (finalStatus perTest = .AC → score = 0 → finalScore score perTest = 100) ∧
    (finalStatus perTest ≠ .AC → finalScore score perTest = 0) ∧
    (finalScore score perTest ≠ 0 → ∀ r ∈ perTest, r.verdict = .AC) := by
  refine ⟨?_, ?_, ?_, ?_⟩
  · intro h hs
    rw [finalStatus_AC_iff] at h
    simp [finalScore, h, effScore, hs]
  · intro h hs
    rw [finalStatus_AC_iff] at h
    simp [finalScore, h, effScore, hs]
  · intro h
    rw [Ne, finalStatus_AC_iff] at h
    simp [finalScore, h]
  · intro h
    rw [← everyAC_iff]
    by_contra hn
    exact h (by simp [finalScore, hn])

/-- C6, instance: weight 250, two AC tests: score 250. -/
theorem finalScore_all_or_nothing_witness :
    finalScore 250 [⟨1, .AC, 3, []⟩, ⟨2, .AC, 5, []⟩] = 250 :=
  (finalScore_all_or_nothing 250 [⟨1, .AC, 3, []⟩, ⟨2, .AC, 5, []⟩]).1
    (by decide) (by decide)

/-! ## C7: unsupported language tags; the shape of the test loop -/

theorem loopBody_perTest (ctx : JudgeCtx) (i : Nat) (t : TestEnv) (st : LoopState) :
    ∃ r : PerTest, (loopBody ctx i t st).perTest = st.perTest ++ [r] ∧ r.index = i + 1 := by
  unfold loopBody
  simp only
  split
  · exact ⟨_, rfl, rfl⟩
  · exact ⟨_, rfl, rfl⟩
  · exact ⟨_, rfl, rfl⟩

theorem testLoop_index (ctx : JudgeCtx) (ts : List TestEnv) (i : Nat) (st : LoopState) :
    (testLoop ctx i ts st).perTest.map PerTest.index =
      st.perTest.map PerTest.index ++ List.range' (i + 1) ts.length := by
  induction ts generalizing i st with
  | nil => simp [testLoop]
  | cons t ts ih =>
    obtain ⟨r, hr, hi⟩ := loopBody_perTest ctx i t st
    rw [testLoop, ih, hr]
    simp [List.range'_succ, hi]

theorem dispatch_unsupported (ctx : JudgeCtx) (t : TestEnv) (inputData : JsString)
    (h1 : ctx.language ≠ "cpp".toList) (h2 : ctx.language ≠ "python".toList) :
    dispatch ctx t inputData = none := by
  unfold dispatch
  rw [if_neg h1, if_neg h2]

theorem testLoop_unsupported (ctx : JudgeCtx) (ts : List TestEnv) (i : Nat) (st : LoopState)
    (h1 : ctx.language ≠ "cpp".toList) (h2 : ctx.language ≠ "python".toList) :
    (testLoop ctx i ts st).perTest.map PerTest.verdict =
      st.perTest.map PerTest.verdict ++ List.replicate ts.length Verdict.SystemError := by
  induction ts generalizing i st with
  | nil => simp [testLoop]
  | cons t ts ih =>
    rw [testLoop, ih]
    simp only [loopBody, dispatch_unsupported ctx t _ h1 h2, List.map_append, List.map_cons,
      List.map_nil, List.length_cons, List.replicate_succ, List.append_assoc,
      List.singleton_append]

theorem finalStatus_of_verdicts (l : List PerTest) (n : Nat)
    (h : l.map PerTest.verdict = List.replicate (n + 1) Verdict.SystemError) :
    everyAC l = false ∧ finalStatus l = .WA := by
  have hall : ∀ r ∈ l, r.verdict = .SystemError := by
    intro r hr
    have : r.verdict ∈ l.map PerTest.verdict := List.mem_map_of_mem _ hr
    rw [h] at this
    exact List.eq_of_mem_replicate this
  have hne : l ≠ [] := by
    intro hl
    rw [hl] at h
    simp [List.replicate_succ] at h
  obtain ⟨r0, hr0⟩ := List.exists_mem_of_ne_nil l hne
  have h1 : everyAC l = false := by
    cases he : everyAC l
    · rfl
    · have := (everyAC_iff l).mp he r0 hr0
      rw [hall r0 hr0] at this
      exact Verdict.noConfusion this
  have h2 : (l.find? (fun r => r.verdict == .TLE)).isSome = false := by
    cases hf : (l.find? (fun r => r.verdict == .TLE)).isSome
    · rfl
    · obtain ⟨r, hr, hv⟩ := (find_isSome_iff l _).mp hf
      rw [hall r hr] at hv
      exact Verdict.noConfusion hv
  have h3 : (l.find? (fun r => r.verdict == .RE)).isSome = false := by
    cases hf : (l.find? (fun r => r.verdict == .RE)).isSome
    · rfl
    · obtain ⟨r, hr, hv⟩ := (find_isSome_iff l _).mp hf
      rw [hall r hr] at hv
      exact Verdict.noConfusion hv
  refine ⟨h1, ?_⟩
  unfold finalStatus
  simp [h1, h2, h3]

/-- C7, what the code does. For a language tag other than `cpp` and `python`, every
per-test record is SystemError, but the submission verdict is never SystemError: it is WA
with score 0 when there is at least one test case, and AC with the full score
(`problem.score || 100`) when there is none. -/
theorem unsupported_language_verdict (ctx : JudgeCtx) (tests : List TestEnv)
    (h1 : ctx.language ≠ "cpp".toList) (h2 : ctx.language ≠ "python".toList) :
    (∀ r ∈ runTests ctx tests, r.verdict = .SystemError) ∧
    (tests ≠ [] → judgeTests ctx tests = (.WA, 0)) ∧
    (tests = [] → judgeTests ctx tests = (.AC, effScore ctx.score)) ∧
    (judgeTests ctx tests).1 ≠ .SystemError := by
  have hv : (runTests ctx tests).map PerTest.verdict =
      List.replicate tests.length Verdict.SystemError := by
    unfold runTests
    rw [testLoop_unsupported ctx tests 0 _ h1 h2]
    simp [LoopState.init]
  have hne : tests ≠ [] → judgeTests ctx tests = (.WA, 0) := by
    intro hn
    obtain ⟨t, ts, rfl⟩ := List.exists_cons_of_ne_nil hn
    obtain ⟨he, hf⟩ := finalStatus_of_verdicts (runTests ctx (t :: ts)) ts.length hv
    simp [judgeTests, hf, finalScore, he]
  have hnil : tests = [] → judgeTests ctx tests = (.AC, effScore ctx.score) := by
    intro hn
    subst hn
    rfl
  refine ⟨?_, hne, hnil, ?_⟩
  · intro r hr
    have : r.verdict ∈ (runTests ctx tests).map PerTest.verdict := List.mem_map_of_mem _ hr
    rw [hv] at this
    exact List.eq_of_mem_replicate this
  · by_cases hn : tests = []
    · rw [hnil hn]
      exact fun h => Verdict.noConfusion h
    · rw [hne hn]
      exact fun h => Verdict.noConfusion h

/-- C7, instance: language `ruby`, one test case: the stored verdict is WA with score 0. -/
theorem unsupported_language_verdict_witness :
    judgeTests ⟨"ruby".toList, [], "a.txt".toList, 1000, 100⟩
      [⟨some [], some [], fun _ _ _ _ => .error []⟩] = (.WA, 0) :=
  (unsupported_language_verdict ⟨"ruby".toList, [], "a.txt".toList, 1000, 100⟩
    [⟨some [], some [], fun _ _ _ _ => .error []⟩] (by decide) (by decide)).2.1 (by simp)

/-! ## C8: failure to start the process -/

theorem classifyRun_ne_SystemError (r : RunResult) (expected : JsString) :
    classifyRun r expected ≠ .SystemError := by
  unfold classifyRun
  simp only
  split_ifs <;> exact fun h => Verdict.noConfusion h

/-- C8, what the code does. A run result produced by a failure to start the process (spawn
throws, or the child emits `error` before the kill timer fires) whose error text is not
blank is classified RE and recorded as RE by the test loop; no run result at all is ever
classified SystemError. -/
theorem spawn_failure_is_RE (T : Int) (events : List ProcEvent) (text : JsString) (rt : ℚ)
    (expected : JsString) (h : ∃ c ∈ text, isTrimSpace c = false) :
    (runProcess T events (.spawnThrew text rt)).code = none ∧
    (runProcess T events (.spawnThrew text rt)).stderr = text ∧
    (runProcess T events (.spawnThrew text rt)).timedOut = false ∧
    classifyRun (runProcess T events (.spawnThrew text rt)) expected = .RE ∧
    (ProcEvent.killerFired ∉ events →
      classifyRun (runProcess T events (.childError text rt)) expected = .RE) ∧
    (∀ (i : Nat), (perTestOfRun i (runProcess T events (.spawnThrew text rt)) expected).verdict
      = .RE) ∧
    (∀ r : RunResult, classifyRun r expected ≠ .SystemError) := by
  have a : classifyRun (runProcess T events (.spawnThrew text rt)) expected = .RE :=
    (classifyRun_stderr _ expected rfl).1 h
  refine ⟨rfl, rfl, rfl, a, ?_, fun _ => a, fun r => classifyRun_ne_SystemError r expected⟩
  intro hk
  refine (classifyRun_stderr _ expected ?_).1 h
  show (events.foldl ProcState.step ProcState.init).timedOut = false
  cases hto : (events.foldl ProcState.step ProcState.init).timedOut
  · rfl
  · rcases (foldl_step_timedOut events _).mp hto with h0 | h0
    · exact Bool.noConfusion h0
    · exact absurd h0 hk

/-- C8, instance: the interpreter is missing; the test is recorded as RE. -/
theorem spawn_failure_is_RE_witness :
    classifyRun (runProcess 2000 [] (.spawnThrew "Error: spawn python3 ENOENT".toList 1))
      "42".toList = .RE :=
  (spawn_failure_is_RE 2000 [] "Error: spawn python3 ENOENT".toList 1 "42".toList
    ⟨'E', by decide, by decide⟩).2.2.2.1

/-! ## C9: persisted per-test records -/

/-- C9. Two run results of the same test case that differ only in the captured stdout and
compare in the same way with the expected output after normalisation give the same
per-test record; the record consists of the index, the verdict, the elapsed time and the
error text. -/
theorem perTest_independent_of_stdout (i : Nat) (r : RunResult)
    (stdout2 expected : JsString)
    (h : specNormalize r.stdout = specNormalize expected ↔
      specNormalize stdout2 = specNormalize expected) :
    perTestOfRun i { r with stdout := stdout2 } expected = perTestOfRun i r expected ∧
    perTestOfRun i r expected =
      ⟨i + 1, classifyRun r expected, r.runtime_ms, r.stderr⟩ := by
  have hv : classifyRun { r with stdout := stdout2 } expected = classifyRun r expected := by
    unfold classifyRun
    simp only [normalizeOut_eq_spec]
    by_cases h1 : specNormalize r.stdout = specNormalize expected
    · simp [h1, h.mp h1]
    · have h3 : ¬ specNormalize stdout2 = specNormalize expected := fun h2 => h1 (h.mpr h2)
      simp [h1, h3]
  constructor
  · simp only [perTestOfRun, hv]
  · simp only [perTestOfRun, strOr_nil]

/-- C9, instance: the wrong answers `5` and `6` for the expected `4` leave the same record. -/
theorem perTest_independent_of_stdout_witness :
    perTestOfRun 0 (RunResult.mk (some 0) ['6'] [] 9 false none) ['4']
      = perTestOfRun 0 (RunResult.mk (some 0) ['5'] [] 9 false none) ['4'] :=
  (perTest_independent_of_stdout 0 (RunResult.mk (some 0) ['5'] [] 9 false none) ['6'] ['4']
    (by decide)).1

/-! ## C10: length and indexes of the per-test list -/

/-- C10. When the test loop has completed over `n` test cases, the per-test list has
exactly `n` entries and their indexes are `1, 2, ..., n` in order, for every language tag
and every behaviour of the runner (tests recorded as SystemError included). -/
theorem runTests_length_index (ctx : JudgeCtx) (tests : List TestEnv) :
    (runTests ctx tests).length = tests.length ∧
    (runTests ctx tests).map PerTest.index = List.range' 1 tests.length ∧
    ∀ (k : Nat) (hk : k < (runTests ctx tests).length),
      ((runTests ctx tests).get ⟨k, hk⟩).index = k + 1 := by
  have hm : (runTests ctx tests).map PerTest.index = List.range' 1 tests.length := by
    unfold runTests
    rw [testLoop_index]
    simp [LoopState.init]
  have hl : (runTests ctx tests).length = tests.length := by
    have := congrArg List.length hm
    simpa using this
  refine ⟨hl, hm, ?_⟩
  intro k hk
  have h1 : ((runTests ctx tests).map PerTest.index)[k]? = some (k + 1) := by
    rw [hm, List.getElem?_range' _ _ (by omega)]
    simp [Nat.add_comm]
  rw [List.getElem?_map, List.getElem?_eq_getElem hk] at h1
  simpa using h1

/-- C10, instance: two test cases under an unsupported language tag give two records, with
indexes 1 and 2. -/
theorem runTests_length_index_witness :
    (runTests ⟨"ruby".toList, [], "a.txt".toList, 1000, 100⟩
      [⟨some [], some [], fun _ _ _ _ => .error []⟩,
       ⟨none, none, fun _ _ _ _ => .error []⟩]).map PerTest.index = [1, 2] :=
  (runTests_length_index ⟨"ruby".toList, [], "a.txt".toList, 1000, 100⟩
    [⟨some [], some [], fun _ _ _ _ => .error []⟩,
     ⟨none, none, fun _ _ _ _ => .error []⟩]).2.1

/-! ## C11: writes of the submission status -/

theorem finalStatus_cases (perTest : List PerTest) :
    finalStatus perTest = .AC ∨ finalStatus perTest = .TLE ∨ finalStatus perTest = .RE ∨
      finalStatus perTest = .WA := by
  unfold finalStatus
  split_ifs <;> simp

/-- C11 as stated fails: a python submission on a problem without test cases is written as
AC; the insertion of the attempt record then rejects, and the catch block writes the status
of the same submission a second time, as SystemError. -/
theorem status_written_twice :
    judgeTask .ready ⟨"python".toList, [], "a.py".toList, 1000, 100⟩ []
        ⟨false, true, false, false⟩ =
      [.updateStatus .AC 100, .updateStatus .SystemError 0, .insertAttempt false false] ∧
    statusWrites (judgeTask .ready ⟨"python".toList, [], "a.py".toList, 1000, 100⟩ []
      ⟨false, true, false, false⟩) = [.AC, .SystemError] := by
  decide

/-- C11, amended. A judging task whose queries all succeed writes the status of its
submission exactly once, with a terminal status: SystemError when the setup throws, CE
after a compile error, and the reduced verdict of the per-test list (AC, WA, TLE or RE)
after the test loop, followed by one attempt record. When the `UPDATE` of the try block
rejects, the only status written is SystemError. The status is written at most twice, every
status written is terminal, and a second write is always SystemError: it happens when the
`UPDATE` of the try block succeeds, the following `INSERT INTO attempts` rejects and the
`UPDATE` of the catch block succeeds. -/
theorem status_writes_of_task (setup : Setup) (ctx : JudgeCtx) (tests : List TestEnv)
    (f : DbFaults) :
    (∀ e, setup = .threw e → f.catchUpdate = false →
      statusWrites (judgeTask setup ctx tests f) = [.SystemError]) ∧
    (∀ out, setup = .compileError out → f.tryUpdate = false → f.tryInsert = false →
      judgeTask setup ctx tests f = [.updateStatus .CE 0, .insertAttempt false true]) ∧
    (setup = .ready → f.tryUpdate = false → f.tryInsert = false →
      judgeTask setup ctx tests f =
        [.updateStatus (finalStatus (runTests ctx tests))
            (finalScore ctx.score (runTests ctx tests)),
         .insertAttempt (decide (finalScore ctx.score (runTests ctx tests) > 0)) false]) ∧
    (f.tryUpdate = false → f.tryInsert = false → f.catchUpdate = false →
      f.catchInsert = false →
      ∃ v, statusWrites (judgeTask setup ctx tests f) = [v] ∧ v ≠ .judging) ∧
    (f.tryUpdate = true → f.catchUpdate = false →
      statusWrites (judgeTask setup ctx tests f) = [.SystemError]) ∧
    ((∀ e, setup ≠ .threw e) → f.tryUpdate = false → f.tryInsert = true →
      f.catchUpdate = false →
      (setup = .ready → statusWrites (judgeTask setup ctx tests f) =
        [finalStatus (runTests ctx tests), .SystemError]) ∧
      (∀ out, setup = .compileError out → statusWrites (judgeTask setup ctx tests f) =
        [.CE, .SystemError])) ∧
    (statusWrites (judgeTask setup ctx tests f)).length ≤ 2 ∧
    (∀ v ∈ (statusWrites (judgeTask setup ctx tests f)).tail, v = .SystemError) ∧
    (∀ v ∈ statusWrites (judgeTask setup ctx tests f),
      v = .AC ∨ v = .WA ∨ v = .TLE ∨ v = .RE ∨ v = .CE ∨ v = .SystemError) := by
  have hfin := finalStatus_cases (runTests ctx tests)
  have hnj : finalStatus (runTests ctx tests) ≠ .judging := by
    rcases hfin with h | h | h | h <;> rw [h] <;> exact fun e => Verdict.noConfusion e
  cases setup with
  | threw e =>
    refine ⟨?_, ?_, ?_, ?_, ?_, ?_, ?_, ?_, ?_⟩
    · intro _ _ h3
      cases h4 : f.catchInsert <;> simp [judgeTask, catchBlock, statusWrites, h3, h4]
    · intro out h
      exact Setup.noConfusion h
    · intro h
      exact Setup.noConfusion h
    · intro _ _ h3 h4
      exact ⟨.SystemError, by simp [judgeTask, catchBlock, statusWrites, h3, h4],
        fun e => Verdict.noConfusion e⟩
    · intro _ h3
      cases h4 : f.catchInsert <;> simp [judgeTask, catchBlock, statusWrites, h3, h4]
    · intro h
      exact absurd rfl (h e)
    · cases h3 : f.catchUpdate <;> cases h4 : f.catchInsert <;>
        simp [judgeTask, catchBlock, statusWrites, h3, h4]
    · cases h3 : f.catchUpdate <;> cases h4 : f.catchInsert <;>
        simp [judgeTask, catchBlock, statusWrites, h3, h4]
    · cases h3 : f.catchUpdate <;> cases h4 : f.catchInsert <;>
        simp [judgeTask, catchBlock, statusWrites, h3, h4]
  | compileError out =>
    refine ⟨?_, ?_, ?_, ?_, ?_, ?_, ?_, ?_, ?_⟩
    · intro e h
      exact Setup.noConfusion h
    · intro _ _ h1 h2
      simp [judgeTask, h1, h2]
    · intro h
      exact Setup.noConfusion h
    · intro h1 h2 _ _
      exact ⟨.CE, by simp [judgeTask, statusWrites, h1, h2], fun e => Verdict.noConfusion e⟩
    · intro h1 h3
      cases h4 : f.catchInsert <;> simp [judgeTask, catchBlock, statusWrites, h1, h3, h4]
    · intro _ h1 h2 h3
      cases hc : f.catchInsert <;>
        simp [judgeTask, h1, h2, h3, hc, catchBlock, statusWrites]
    · cases h1 : f.tryUpdate <;> cases h2 : f.tryInsert <;> cases h3 : f.catchUpdate <;>
        cases h4 : f.catchInsert <;>
        simp [judgeTask, catchBlock, statusWrites, h1, h2, h3, h4]
    · cases h1 : f.tryUpdate <;> cases h2 : f.tryInsert <;> cases h3 : f.catchUpdate <;>
        cases h4 : f.catchInsert <;>
        simp [judgeTask, catchBlock, statusWrites, h1, h2, h3, h4]
    · cases h1 : f.tryUpdate <;> cases h2 : f.tryInsert <;> cases h3 : f.catchUpdate <;>
        cases h4 : f.catchInsert <;>
        simp [judgeTask, catchBlock, statusWrites, h1, h2, h3, h4]
  | ready =>
    refine ⟨?_, ?_, ?_, ?_, ?_, ?_, ?_, ?_, ?_⟩
    · intro e h
      exact Setup.noConfusion h
    · intro out h
      exact Setup.noConfusion h
    · intro _ h1 h2
      simp [judgeTask, h1, h2]
    · intro h1 h2 _ _
      exact ⟨finalStatus (runTests ctx tests), by simp [judgeTask, statusWrites, h1, h2], hnj⟩
    · intro h1 h3
      cases h4 : f.catchInsert <;> simp [judgeTask, catchBlock, statusWrites, h1, h3, h4]
    · intro _ h1 h2 h3
      cases hc : f.catchInsert <;>
        simp [judgeTask, h1, h2, h3, hc, catchBlock, statusWrites]
    · cases h1 : f.tryUpdate <;> cases h2 : f.tryInsert <;> cases h3 : f.catchUpdate <;>
        cases h4 : f.catchInsert <;>
        simp [judgeTask, catchBlock, statusWrites, h1, h2, h3, h4]
    · cases h1 : f.tryUpdate <;> cases h2 : f.tryInsert <;> cases h3 : f.catchUpdate <;>
        cases h4 : f.catchInsert <;>
        simp [judgeTask, catchBlock, statusWrites, h1, h2, h3, h4]
    · have hfin2 : finalStatus (runTests ctx tests) = .AC ∨
          finalStatus (runTests ctx tests) = .WA ∨ finalStatus (runTests ctx tests) = .TLE ∨
          finalStatus (runTests ctx tests) = .RE ∨ finalStatus (runTests ctx tests) = .CE ∨
          finalStatus (runTests ctx tests) = .SystemError := by
        rcases hfin with h | h | h | h <;> simp [h]
      cases h1 : f.tryUpdate <;> cases h2 : f.tryInsert <;> cases h3 : f.catchUpdate <;>
        cases h4 : f.catchInsert <;>
        simp [judgeTask, catchBlock, statusWrites, h1, h2, h3, h4, hfin2]

/-- C11, instance: a python submission on a problem without test cases, all queries
succeeding: the status AC with score 100 is written once, then the attempt record. -/
theorem status_writes_of_task_witness :
    judgeTask .ready ⟨"python".toList, [], "a.py".toList, 1000, 100⟩ []
        ⟨false, false, false, false⟩ =
      [.updateStatus .AC 100, .insertAttempt true false] :=
  (status_writes_of_task .ready ⟨"python".toList, [], "a.py".toList, 1000, 100⟩ []
    ⟨false, false, false, false⟩).2.2.1 rfl rfl rfl

/-! ## C12: the kill timer -/

theorem floor_eleven_tenths (T : Int) : ⌊(T : ℚ) * (11 / 10)⌋ = T * 11 / 10 := by
  have h : (T : ℚ) * (11 / 10) = ((T * 11 : Int) : ℚ) / ((10 : Nat) : ℚ) := by
    push_cast
    ring
  rw [h, Rat.floor_intCast_div_natCast]
  rfl

theorem ceil_eleven_tenths (T : Int) : ⌈(T : ℚ) * (11 / 10)⌉ = -((-(T * 11)) / 10) := by
  have h : -((T : ℚ) * (11 / 10)) = ((-(T * 11) : Int) : ℚ) / ((10 : Nat) : ℚ) := by
    push_cast
    ring
  have h2 : ⌈(T : ℚ) * (11 / 10)⌉ = -⌊-((T : ℚ) * (11 / 10))⌋ := by
    rw [Int.floor_neg, neg_neg]
  rw [h2, h, Rat.floor_intCast_div_natCast]
  rfl

theorem findShift_le (P bound : Nat) (hP : P / 2 ^ bound < 2 ^ 53) :
    ∀ fuel s, s ≤ bound → bound ≤ s + fuel → findShift P fuel s ≤ bound := by
  intro fuel
  induction fuel with
  | zero =>
    intro s h1 h2
    simp only [findShift]
    omega
  | succ n ih =>
    intro s h1 h2
    simp only [findShift]
    split_ifs with h
    · exact h1
    · have hne : s ≠ bound := by
        intro e
        rw [e] at h
        exact h hP
      exact ih (s + 1) (by omega) (by omega)

theorem roundShift_floor (T s : Nat) (hT0 : 0 < T) (hT : T < 2 ^ 31) (hs : s ≤ 31) :
    roundShift (T * onePointOne) s / 2 ^ 52 = T * 11 / 10 := by
  unfold roundShift onePointOne
  interval_cases s <;> simp only [] <;> norm_num <;> split_ifs <;> omega

theorem killAfter_of_pos (T : Int) (h0 : 0 < T) (hT : T < 2 ^ 31) :
    killAfter T = max 1 (T * 11 / 10) := by
  obtain ⟨n, rfl⟩ := Int.eq_ofNat_of_zero_le (le_of_lt h0)
  have hn0 : 0 < n := by exact_mod_cast h0
  have hn : n < 2 ^ 31 := by exact_mod_cast hT
  have hP : n * onePointOne / 2 ^ 31 < 2 ^ 53 := by
    unfold onePointOne
    omega
  have hs := findShift_le (n * onePointOne) 31 hP 1100 0 (by omega) (by omega)
  unfold killAfter timesOnePointOne
  rw [Int.sign_eq_one_of_pos h0, one_mul, Int.natAbs_ofNat]
  generalize findShift (n * onePointOne) 1100 0 = s at hs ⊢
  have hr := roundShift_floor n s hn0 hn hs
  have hcast : ((roundShift (n * onePointOne) s : Nat) : Int) / 2 ^ 52 =
      ((n * 11 / 10 : Nat) : Int) := by
    rw [← hr, Int.ofNat_ediv]
    rfl
  rw [hcast]
  rfl

theorem killAfter_of_nonpos (T : Int) (h0 : T ≤ 0) : killAfter T = 1 := by
  unfold killAfter timesOnePointOne
  generalize roundShift (T.natAbs * onePointOne)
    (findShift (T.natAbs * onePointOne) 1100 0) = R
  have h1 : T.sign ≤ 0 := by
    rcases lt_or_eq_of_le h0 with h | h
    · rw [Int.sign_eq_neg_one_of_neg h]
      decide
    · rw [h]
      decide
  have h2 : T.sign * (R : Int) ≤ 0 :=
    Int.mul_nonpos_of_nonpos_of_nonneg h1 (Int.ofNat_nonneg _)
  have h3 : T.sign * (R : Int) / 2 ^ 52 ≤ 0 := by
    omega
  exact max_eq_left (by omega)

/-- C12 as stated fails: for the time limit 5 ms the timer is armed at 5 ms, while
`ceil(5 * 1.1)` is 6. -/
theorem killAfter_not_ceil : killAfter 5 = 5 ∧ specKillAfter 5 = 6 ∧
    killAfter 5 ≠ specKillAfter 5 := by
  have h : specKillAfter 5 = 6 := by
    unfold specKillAfter
    rw [ceil_eleven_tenths]
    decide
  refine ⟨by decide, h, ?_⟩
  rw [h]
  decide

/-- C12, amended. For every integer time limit `T` in milliseconds with `0 < T < 2^31` the
timer is armed at `max(1, floor(T * 1.1))` milliseconds, the floor being that of the exact
product `11 T / 10`: this is `ceil(T * 1.1)` when `T` is a multiple of 10 and one
millisecond less otherwise. For `T ≤ 0` the timer is armed at 1 millisecond. Beyond that
range the rounding of the double product can matter: for `T = 511779527049309` the timer is
armed at 562957479754240, the ceiling of the exact product. -/
theorem killAfter_floor (T : Int) :
    (0 < T → T < 2 ^ 31 → killAfter T = max 1 ⌊(T : ℚ) * (11 / 10)⌋) ∧
    (0 < T → T < 2 ^ 31 → 10 ∣ T → killAfter T = specKillAfter T) ∧
    (0 < T → T < 2 ^ 31 → ¬ 10 ∣ T → killAfter T = specKillAfter T - 1) ∧
    (T ≤ 0 → killAfter T = 1) ∧
    killAfter 511779527049309 = 562957479754240 ∧
    specKillAfter 511779527049309 = 562957479754240 := by
  refine ⟨?_, ?_, ?_, killAfter_of_nonpos T, by decide, ?_⟩
  · intro h0 hT
    rw [killAfter_of_pos T h0 hT, floor_eleven_tenths]
  · intro h0 hT hd
    rw [killAfter_of_pos T h0 hT]
    unfold specKillAfter
    rw [ceil_eleven_tenths]
    omega
  · intro h0 hT hd
    rw [killAfter_of_pos T h0 hT]
    unfold specKillAfter
    rw [ceil_eleven_tenths]
    have h1 : T * 11 % 10 = T % 10 := by omega
    have h2 : T % 10 ≠ 0 := fun h => hd (Int.dvd_of_emod_eq_zero h)
    omega
  · unfold specKillAfter
    rw [ceil_eleven_tenths]
    decide

/-- C12, instance: the limit 2000 ms arms the timer at 2200 ms. -/
theorem killAfter_floor_witness : killAfter 2000 = specKillAfter 2000 :=
  (killAfter_floor 2000).2.1 (by decide) (by decide) (by decide)

/-! ## Auxiliary facts on the scan of the submissions of one problem -/

theorem cellScore_eq (p : Problem) : cellScore p = p.score := by
  unfold cellScore
  split_ifs with h
  · rfl
  · push_neg at h
    exact h.symm

theorem secondsToAc_eq_floor (start_ts ts : Int) :
    secondsToAc start_ts ts = max 0 ⌊((ts - start_ts : Int) : ℚ) / 1000⌋ := by
  have h : ((ts - start_ts : Int) : ℚ) / 1000 = ((ts - start_ts : Int) : ℚ) / ((1000 : Nat) : ℚ) := by
    norm_num
  rw [h, Rat.floor_intCast_div_natCast]
  rfl

theorem scanSubs_eq (subs : List Submission) (n : Nat) :
    scanSubs subs n = (firstAccepted subs, n + triesBefore subs) := by
  induction subs generalizing n with
  | nil => rfl
  | cons s rest ih =>
    unfold scanSubs
    cases hce : s.compile_error
    · by_cases hac : s.status = .AC
      · have hacc : isAccepted s = true := by simp [isAccepted, hce, hac]
        simp [firstAccepted, triesBefore, hacc, hac]
      · have hacc : isAccepted s = false := by simp [isAccepted, hce, hac]
        have hn : isNonCE s = true := by simp [isNonCE, hce]
        simp only [Bool.false_eq_true, if_false, hac]
        rw [ih (n + 1)]
        simp [firstAccepted, triesBefore, hacc, hn, List.find?_cons]
        omega
    · have hacc : isAccepted s = false := by simp [isAccepted, hce]
      have hn : isNonCE s = false := by simp [isNonCE, hce]
      simp only [if_true]
      rw [ih n]
      simp [firstAccepted, triesBefore, hacc, hn, List.find?_cons]

theorem triesBefore_of_none (subs : List Submission) (h : firstAccepted subs = none) :
    triesBefore subs = (subs.filter isNonCE).length := by
  unfold triesBefore
  have hall : ∀ s ∈ subs, (!isAccepted s) = true := by
    intro s hs
    have := List.find?_eq_none.mp h s hs
    simpa using this
  rw [List.takeWhile_eq_self_iff.mpr hall]

theorem problemStep_eq (start_ts : Int) (st : RowState) (p : Problem)
    (subs : List Submission) :
    problemStep start_ts st p subs =
      { totalScore := st.totalScore + (cellOf p subs).score
        totalPenaltySeconds := st.totalPenaltySeconds + specPenalty start_ts subs
        perProblemCells := st.perProblemCells ++ [cellOf p subs] } := by
  unfold problemStep cellOf specPenalty
  cases subs with
  | nil => simp [firstAccepted]
  | cons s rest =>
    rw [scanSubs_eq]
    cases hf : firstAccepted (s :: rest) with
    | none =>
      have ht := triesBefore_of_none _ hf
      by_cases hany : (s :: rest).any (fun s => !s.compile_error) = true
      · have hfun : (fun s : Submission => !s.compile_error) = isNonCE := rfl
        simp only [List.length_cons, Nat.add_one_ne_zero, if_false, hany, if_true]
        simp [hfun]
      · have h0 : ((s :: rest).filter (fun s => isNonCE s)).length = 0 := by
          rw [List.length_eq_zero, List.filter_eq_nil_iff]
          intro x hx hn
          apply hany
          rw [List.any_eq_true]
          exact ⟨x, hx, by simpa [isNonCE] using hn⟩
        simp only [List.length_cons, Nat.add_one_ne_zero, if_false, hany]
        simp [h0]
    | some a =>
      simp only [List.length_cons, Nat.add_one_ne_zero, if_false, zero_add,
        cellScore_eq, secondsToAc_eq_floor, acDisplay]
      simp
      ring

theorem isAccepted_iff (s : Submission) :
    isAccepted s = true ↔ s.compile_error = false ∧ s.status = .AC := by
  simp [isAccepted]

theorem isAccepted_eq_false_iff (s : Submission) :
    isAccepted s = false ↔ (s.compile_error = true ∨ s.status ≠ .AC) := by
  cases hce : s.compile_error <;> simp [isAccepted, hce]

theorem firstAccepted_append (pre post : List Submission) (a : Submission)
    (hpre : ∀ s ∈ pre, isAccepted s = false) (ha : isAccepted a = true) :
    firstAccepted (pre ++ a :: post) = some a ∧
    triesBefore (pre ++ a :: post) = (pre.filter isNonCE).length := by
  constructor
  · unfold firstAccepted
    rw [List.find?_append, List.find?_eq_none.mpr (fun s hs => by simp [hpre s hs])]
    simp [ha]
  · unfold triesBefore
    rw [List.takeWhile_append_of_pos (fun s hs => by simp [hpre s hs]),
      List.takeWhile_cons_of_neg (by simp [ha])]
    simp

theorem cellOf_tries (p : Problem) (subs : List Submission) :
    (cellOf p subs).tries = triesBefore subs := by
  unfold cellOf
  cases subs with
  | nil => rfl
  | cons s rest =>
    cases hf : firstAccepted (s :: rest) with
    | none => simp [triesBefore_of_none _ hf]
    | some a => simp

theorem cellOf_score (p : Problem) (subs : List Submission) :
    (cellOf p subs).score = if (firstAccepted subs).isSome then p.score else 0 := by
  unfold cellOf
  cases subs with
  | nil => rfl
  | cons s rest =>
    cases hf : firstAccepted (s :: rest) <;> simp

theorem cellOf_status_ac_iff (p : Problem) (subs : List Submission) :
    (cellOf p subs).status = .ac ↔ (firstAccepted subs).isSome = true := by
  unfold cellOf
  cases subs with
  | nil => simp [firstAccepted]
  | cons s rest =>
    cases hf : firstAccepted (s :: rest) <;> simp

theorem firstAccepted_filter (subs : List Submission) :
    firstAccepted (subs.filter isNonCE) = firstAccepted subs := by
  induction subs with
  | nil => rfl
  | cons s rest ih =>
    unfold firstAccepted at ih ⊢
    cases hce : s.compile_error
    · have hn : isNonCE s = true := by simp [isNonCE, hce]
      rw [List.filter_cons_of_pos hn, List.find?_cons, List.find?_cons, ih]
    · have hn : isNonCE s = false := by simp [isNonCE, hce]
      have hacc : isAccepted s = false := by simp [isAccepted, hce]
      rw [List.filter_cons_of_neg (by simp [hn]), List.find?_cons, hacc, ih]

theorem triesBefore_filter (subs : List Submission) :
    triesBefore (subs.filter isNonCE) = triesBefore subs := by
  induction subs with
  | nil => rfl
  | cons s rest ih =>
    unfold triesBefore at ih ⊢
    cases hce : s.compile_error
    · have hn : isNonCE s = true := by simp [isNonCE, hce]
      rw [List.filter_cons_of_pos hn]
      by_cases hacc : isAccepted s = true
      · simp [hacc]
      · simp only [Bool.not_eq_true] at hacc
        simp [hacc, hn, ih]
    · have hn : isNonCE s = false := by simp [isNonCE, hce]
      have hacc : isAccepted s = false := by simp [isAccepted, hce]
      rw [List.filter_cons_of_neg (by simp [hn])]
      simp [hacc, hn, ih]

theorem specPenalty_filter (start_ts : Int) (subs : List Submission) :
    specPenalty start_ts (subs.filter isNonCE) = specPenalty start_ts subs := by
  unfold specPenalty
  rw [firstAccepted_filter, triesBefore_filter]

theorem rankingView_problemStep (start_ts : Int) (st : RowState) (p : Problem)
    (subs : List Submission) :
    rankingView (problemStep start_ts st p subs) =
      (st.totalScore + (if (firstAccepted subs).isSome then p.score else 0),
       st.totalPenaltySeconds + specPenalty start_ts subs,
       st.perProblemCells.map (fun c => (c.score, c.tries)) ++
         [(if (firstAccepted subs).isSome then p.score else 0, triesBefore subs)]) := by
  rw [problemStep_eq]
  simp [rankingView, cellOf_score, cellOf_tries]

/-! ## C13: the cell of a solved problem -/

/-- C13. When the submissions of one (contestant, problem) pair, in creation order, are
`pre ++ a :: post` with `a` the first AC, the cell has the score weight of the problem, its
tries are the number of submissions of `pre` that are not compile errors, and the penalty
grows by `max(0, floor((a.created_ts - start) / 1000)) + 300 * tries` seconds; `post` plays
no role. -/
theorem ac_cell_penalty (start_ts : Int) (st : RowState) (p : Problem)
    (pre post : List Submission) (a : Submission)
    (hpre : ∀ s ∈ pre, s.compile_error = true ∨ s.status ≠ .AC)
    (hce : a.compile_error = false) (hac : a.status = .AC) :
    (problemStep start_ts st p (pre ++ a :: post)).perProblemCells =
      st.perProblemCells ++
        [⟨acDisplay p.score (pre.filter isNonCE).length, p.score,
          (pre.filter isNonCE).length, .ac⟩] ∧
    (problemStep start_ts st p (pre ++ a :: post)).totalScore = st.totalScore + p.score ∧
    (problemStep start_ts st p (pre ++ a :: post)).totalPenaltySeconds =
      st.totalPenaltySeconds +
        (max 0 ⌊((a.created_ts - start_ts : Int) : ℚ) / 1000⌋ +
          300 * ((pre.filter isNonCE).length : Int)) := by
  obtain ⟨hf, ht⟩ := firstAccepted_append pre post a
    (fun s hs => (isAccepted_eq_false_iff s).mpr (hpre s hs))
    ((isAccepted_iff a).mpr ⟨hce, hac⟩)
  rw [problemStep_eq]
  refine ⟨?_, ?_, ?_⟩
  · have hne : pre ++ a :: post ≠ [] := by simp
    simp [cellOf, hne, hf, ht]
  · simp [cellOf_score, hf]
  · simp [specPenalty, hf, ht]

/-- C13, instance: weight 100, contest start at 1000000 ms, two wrong answers and a
compile error, then AC at 1610000 ms (610 s), then another submission: the cell shows
`100 (2)` with 2 tries and the penalty is 1210 s. -/
theorem ac_cell_penalty_witness :
    (problemStep 1000000 RowState.init ⟨1, 100⟩
      [⟨false, .WA, 1100000⟩, ⟨true, .CE, 1200000⟩, ⟨false, .WA, 1300000⟩,
       ⟨false, .AC, 1610000⟩, ⟨false, .WA, 1700000⟩]).perProblemCells =
      [⟨"100 (2)".toList, 100, 2, .ac⟩] ∧
    (problemStep 1000000 RowState.init ⟨1, 100⟩
      [⟨false, .WA, 1100000⟩, ⟨true, .CE, 1200000⟩, ⟨false, .WA, 1300000⟩,
       ⟨false, .AC, 1610000⟩, ⟨false, .WA, 1700000⟩]).totalPenaltySeconds = 1210 :=
  ⟨(ac_cell_penalty 1000000 RowState.init ⟨1, 100⟩
      [⟨false, .WA, 1100000⟩, ⟨true, .CE, 1200000⟩, ⟨false, .WA, 1300000⟩]
      [⟨false, .WA, 1700000⟩] ⟨false, .AC, 1610000⟩ (by decide) rfl rfl).1,
    by decide⟩

/-! ## C14: compile errors do not count -/

/-- C14. Two submission lists of one (contestant, problem) pair that differ only by
compile-error submissions (inserted or removed anywhere) give the same total score, the
same total penalty and the same score and tries in the cell; in particular inserting one
compile-error submission at any position changes none of them. -/
theorem compile_errors_invisible (start_ts : Int) (st : RowState) (p : Problem) :
    (∀ subs1 subs2 : List Submission, subs1.filter isNonCE = subs2.filter isNonCE →
      rankingView (problemStep start_ts st p subs1) =
        rankingView (problemStep start_ts st p subs2)) ∧
    (∀ (front back : List Submission) (c : Submission), c.compile_error = true →
      rankingView (problemStep start_ts st p (front ++ c :: back)) =
        rankingView (problemStep start_ts st p (front ++ back))) := by
  have main : ∀ subs1 subs2 : List Submission, subs1.filter isNonCE = subs2.filter isNonCE →
      rankingView (problemStep start_ts st p subs1) =
        rankingView (problemStep start_ts st p subs2) := by
    intro subs1 subs2 h
    rw [rankingView_problemStep, rankingView_problemStep,
      ← firstAccepted_filter subs1, ← triesBefore_filter subs1, ← specPenalty_filter _ subs1,
      ← firstAccepted_filter subs2, ← triesBefore_filter subs2, ← specPenalty_filter _ subs2, h]
  refine ⟨main, ?_⟩
  intro front back c hc
  apply main
  simp [List.filter_append, isNonCE, hc]

/-- C14, instance: a compile error between a wrong answer and the AC changes nothing. -/
theorem compile_errors_invisible_witness :
    rankingView (problemStep 0 RowState.init ⟨1, 100⟩
      ([⟨false, .WA, 5000⟩] ++ ⟨true, .CE, 6000⟩ :: [⟨false, .AC, 7000⟩])) =
    rankingView (problemStep 0 RowState.init ⟨1, 100⟩
      ([⟨false, .WA, 5000⟩] ++ [⟨false, .AC, 7000⟩])) :=
  (compile_errors_invisible 0 RowState.init ⟨1, 100⟩).2
    [⟨false, .WA, 5000⟩] [⟨false, .AC, 7000⟩] ⟨true, .CE, 6000⟩ rfl

/-! ## C15: unsolved and empty cells -/

/-- C15. Without an AC submission and with at least one submission that is not a compile
error, the cell is `tried_no_ac` with as many tries as there are submissions that are not
compile errors, score 0, and the totals are unchanged; without any submission the cell is
`no_submit` with score 0 and tries 0, and the totals are unchanged. -/
theorem unsolved_cells (start_ts : Int) (st : RowState) (p : Problem)
    (subs : List Submission) :
    ((∀ s ∈ subs, s.status ≠ .AC) → (∃ s ∈ subs, s.compile_error = false) →
      problemStep start_ts st p subs =
        { st with perProblemCells := st.perProblemCells ++
            [⟨"(TRIES)".toList, 0, (subs.filter isNonCE).length, .tried_no_ac⟩] }) ∧
    problemStep start_ts st p [] =
      { st with perProblemCells := st.perProblemCells ++
          [⟨"-".toList, 0, 0, .no_submit⟩] } := by
  refine ⟨?_, rfl⟩
  intro hno hex
  obtain ⟨s0, hs0, _⟩ := hex
  have hne : subs ≠ [] := List.ne_nil_of_mem hs0
  have hf : firstAccepted subs = none := by
    unfold firstAccepted
    rw [List.find?_eq_none]
    intro s hs
    simp [isAccepted, hno s hs]
  rw [problemStep_eq]
  simp [cellOf, hne, hf, specPenalty]

/-- C15, instance: a wrong answer, a compile error and a time limit: two tries. -/
theorem unsolved_cells_witness :
    problemStep 0 RowState.init ⟨1, 100⟩
      [⟨false, .WA, 5000⟩, ⟨true, .CE, 6000⟩, ⟨false, .TLE, 7000⟩] =
    { totalScore := 0, totalPenaltySeconds := 0,
      perProblemCells := [⟨"(TRIES)".toList, 0, 2, .tried_no_ac⟩] } :=
  (unsolved_cells 0 RowState.init ⟨1, 100⟩
    [⟨false, .WA, 5000⟩, ⟨true, .CE, 6000⟩, ⟨false, .TLE, 7000⟩]).1
    (by decide) ⟨⟨false, .WA, 5000⟩, by simp, rfl⟩


/-! ## C16: totals of a row -/

theorem foldl_problemStep (start_ts : Int) (query : Problem → List Submission)
    (problems : List Problem) (st : RowState) :
    problems.foldl (fun st p => problemStep start_ts st p (query p)) st =
      { totalScore := st.totalScore + (problems.map (fun p => (cellOf p (query p)).score)).sum
        totalPenaltySeconds := st.totalPenaltySeconds +
          (problems.map (fun p => specPenalty start_ts (query p))).sum
        perProblemCells := st.perProblemCells ++ problems.map (fun p => cellOf p (query p)) } := by
  induction problems generalizing st with
  | nil => simp
  | cons p ps ih =>
    rw [List.foldl_cons, ih, problemStep_eq]
    simp [add_assoc]

theorem rowState_eq (start_ts : Int) (problems : List Problem)
    (query : Problem → List Submission) :
    rowState start_ts problems query =
      { totalScore := (problems.map (fun p => (cellOf p (query p)).score)).sum
        totalPenaltySeconds := (problems.map (fun p => specPenalty start_ts (query p))).sum
        perProblemCells := problems.map (fun p => cellOf p (query p)) } := by
  unfold rowState
  rw [foldl_problemStep]
  simp [RowState.init]

theorem sum_map_filter_of_zero {α : Type} (l : List α) (f : α → Int) (q : α → Bool)
    (h : ∀ x ∈ l, q x = false → f x = 0) :
    (l.map f).sum = ((l.filter q).map f).sum := by
  induction l with
  | nil => rfl
  | cons a t ih =>
    have iht := ih (fun x hx => h x (List.mem_cons_of_mem a hx))
    cases hq : q a
    · rw [List.filter_cons_of_neg (by simp [hq]), List.map_cons, List.sum_cons,
        h a (List.mem_cons_self a t) hq, zero_add, iht]
    · rw [List.filter_cons_of_pos hq, List.map_cons, List.sum_cons, List.map_cons,
        List.sum_cons, iht]

theorem specPenalty_of_unsolved (start_ts : Int) (subs : List Submission)
    (h : (firstAccepted subs).isSome = false) : specPenalty start_ts subs = 0 := by
  unfold specPenalty
  cases hf : firstAccepted subs with
  | none => rfl
  | some a => rw [hf] at h; exact Bool.noConfusion h

/-- C16. For the row of one contestant, the total score is the sum of the scores of its
cells, there is one cell per problem, the total penalty is the sum of the penalty
contributions of exactly the solved problems, and every cell that is not solved has
score 0. -/
theorem row_totals (start_ts : Int) (problems : List Problem)
    (query : Problem → List Submission) :
    (rowState start_ts problems query).totalScore =
      ((rowState start_ts problems query).perProblemCells.map Cell.score).sum ∧
    (rowState start_ts problems query).perProblemCells =
      problems.map (fun p => cellOf p (query p)) ∧
    (rowState start_ts problems query).totalPenaltySeconds =
      ((problems.filter (fun p => (firstAccepted (query p)).isSome)).map
        (fun p => specPenalty start_ts (query p))).sum ∧
    (∀ c ∈ (rowState start_ts problems query).perProblemCells,
      c.status ≠ .ac → c.score = 0) := by
  rw [rowState_eq]
  refine ⟨?_, rfl, ?_, ?_⟩
  · simp only [List.map_map]
    rfl
  · exact sum_map_filter_of_zero problems _ _
      (fun p _ hp => specPenalty_of_unsolved start_ts (query p) hp)
  · intro c hc hst
    simp only [List.mem_map] at hc
    obtain ⟨p, _, rfl⟩ := hc
    rw [cellOf_score]
    have : (firstAccepted (query p)).isSome = false := by
      cases h : (firstAccepted (query p)).isSome
      · rfl
      · exact absurd ((cellOf_status_ac_iff p (query p)).mpr h) hst
    simp [this]

/-- C16, instance: problem 1 (weight 100) solved at 610 s after one wrong answer, problem 2
(weight 50) tried and not solved, problem 3 untried: total score 100, total penalty 910. -/
theorem row_totals_witness :
    (rowState 0 [⟨1, 100⟩, ⟨2, 50⟩, ⟨3, 70⟩]
      (fun p => if p.id = 1 then [⟨false, .WA, 5000⟩, ⟨false, .AC, 610000⟩]
        else if p.id = 2 then [⟨false, .WA, 8000⟩] else [])).totalScore = 100 ∧
    (rowState 0 [⟨1, 100⟩, ⟨2, 50⟩, ⟨3, 70⟩]
      (fun p => if p.id = 1 then [⟨false, .WA, 5000⟩, ⟨false, .AC, 610000⟩]
        else if p.id = 2 then [⟨false, .WA, 8000⟩] else [])).totalPenaltySeconds = 910 :=
  ⟨(row_totals 0 [⟨1, 100⟩, ⟨2, 50⟩, ⟨3, 70⟩]
      (fun p => if p.id = 1 then [⟨false, .WA, 5000⟩, ⟨false, .AC, 610000⟩]
        else if p.id = 2 then [⟨false, .WA, 8000⟩] else [])).1.trans (by decide),
    by decide⟩

/-! ## C18: submissions in state judging -/

theorem firstAccepted_dropJudging (subs : List Submission) :
    firstAccepted (dropJudging subs) = firstAccepted subs := by
  induction subs with
  | nil => rfl
  | cons s rest ih =>
    unfold firstAccepted dropJudging at ih ⊢
    by_cases hj : s.status = .judging
    · have hacc : isAccepted s = false := by simp [isAccepted, hj]
      rw [List.filter_cons_of_neg (by simp [hj]), List.find?_cons, hacc, ih]
    · rw [List.filter_cons_of_pos (by simp [hj]), List.find?_cons, List.find?_cons, ih]

theorem triesBefore_dropJudging (subs : List Submission) :
    triesBefore subs = triesBefore (dropJudging subs) + judgingBefore subs := by
  induction subs with
  | nil => rfl
  | cons s rest ih =>
    unfold triesBefore dropJudging judgingBefore at ih ⊢
    by_cases hacc : isAccepted s = true
    · have hj : s.status ≠ .judging := by
        intro h
        simp [isAccepted, h] at hacc
      rw [List.filter_cons_of_pos (by simp [hj])]
      simp [hacc]
    · simp only [Bool.not_eq_true] at hacc
      by_cases hj : s.status = .judging
      · rw [List.filter_cons_of_neg (by simp [hj])]
        cases hn : isNonCE s
        · simp [hacc, hn, hj]
          exact ih
        · simp [hacc, hn, hj]
          omega
      · rw [List.filter_cons_of_pos (by simp [hj])]
        cases hn : isNonCE s
        · simp [hacc, hn, hj]
          exact ih
        · simp [hacc, hn, hj]
          omega

theorem specPenalty_dropJudging (start_ts : Int) (subs : List Submission) :
    specPenalty start_ts subs = specPenalty start_ts (dropJudging subs) +
      300 * (if (firstAccepted subs).isSome then (judgingBefore subs : Int) else 0) := by
  unfold specPenalty
  rw [firstAccepted_dropJudging]
  cases hf : firstAccepted subs with
  | none => simp
  | some a =>
    simp only [Option.isSome_some, if_true]
    rw [triesBefore_dropJudging subs]
    push_cast
    ring

/-- C18 as stated fails: with one submission still in state `judging` before an AC at
610 s, the total penalty of the contestant is 910 s; without that submission it is 610 s. -/
theorem judging_changes_penalty :
    (rowState 0 [⟨1, 100⟩]
      (fun _ => [⟨false, .judging, 100000⟩, ⟨false, .AC, 610000⟩])).totalPenaltySeconds = 910 ∧
    (rowState 0 [⟨1, 100⟩]
      (fun _ => dropJudging [⟨false, .judging, 100000⟩, ⟨false, .AC, 610000⟩])).totalPenaltySeconds
      = 610 := by
  decide

/-- C18, amended. Removing the submissions that are still in state `judging` does not
change the total score of the contestant. The total penalty with them is the total penalty
without them plus 300 seconds for every such submission (not flagged as a compile error)
that precedes the first AC of a solved problem; it is unchanged when no solved problem has
such a submission before its first AC. -/
theorem judging_counts_as_try (start_ts : Int) (problems : List Problem)
    (query : Problem → List Submission) :
    (rowState start_ts problems (fun p => dropJudging (query p))).totalScore =
      (rowState start_ts problems query).totalScore ∧
    (rowState start_ts problems query).totalPenaltySeconds =
      (rowState start_ts problems (fun p => dropJudging (query p))).totalPenaltySeconds +
        300 * (problems.map (fun p =>
          if (firstAccepted (query p)).isSome then (judgingBefore (query p) : Int) else 0)).sum ∧
    ((∀ p ∈ problems, (firstAccepted (query p)).isSome = true → judgingBefore (query p) = 0) →
      (rowState start_ts problems (fun p => dropJudging (query p))).totalPenaltySeconds =
        (rowState start_ts problems query).totalPenaltySeconds) := by
  have hpen : (rowState start_ts problems query).totalPenaltySeconds =
      (rowState start_ts problems (fun p => dropJudging (query p))).totalPenaltySeconds +
        300 * (problems.map (fun p =>
          if (firstAccepted (query p)).isSome then (judgingBefore (query p) : Int) else 0)).sum := by
    rw [rowState_eq, rowState_eq]
    simp only
    rw [← List.sum_map_mul_left, ← List.sum_map_add]
    congr 1
    apply List.map_congr_left
    intro p _
    exact specPenalty_dropJudging start_ts (query p)
  refine ⟨?_, hpen, ?_⟩
  · rw [rowState_eq, rowState_eq]
    simp only [cellOf_score, firstAccepted_dropJudging]
  · intro h
    rw [hpen]
    have hz : (problems.map (fun p =>
        if (firstAccepted (query p)).isSome then (judgingBefore (query p) : Int) else 0)).sum
        = 0 := by
      apply List.sum_eq_zero
      intro x hx
      simp only [List.mem_map] at hx
      obtain ⟨p, hp, rfl⟩ := hx
      by_cases hs : (firstAccepted (query p)).isSome = true
      · simp [hs, h p hp hs]
      · simp [hs]
    rw [hz]
    simp

/-- C18, instance: a submission in state `judging` after the AC does not change the
penalty. -/
theorem judging_counts_as_try_witness :
    (rowState 0 [⟨1, 100⟩]
      (fun _ => dropJudging [⟨false, .AC, 610000⟩, ⟨false, .judging, 700000⟩])).totalPenaltySeconds
      = (rowState 0 [⟨1, 100⟩]
      (fun _ => [⟨false, .AC, 610000⟩, ⟨false, .judging, 700000⟩])).totalPenaltySeconds :=
  (judging_counts_as_try 0 [⟨1, 100⟩]
    (fun _ => [⟨false, .AC, 610000⟩, ⟨false, .judging, 700000⟩])).2.2
    (by decide)


/-! ## C17: ranking order -/

theorem rowLE_iff (a b : Row) :
    rowLE a b ↔ (a.totalScore > b.totalScore ∨
      (a.totalScore = b.totalScore ∧ a.totalPenaltySeconds ≤ b.totalPenaltySeconds)) := by
  unfold rowLE rowCompare
  split_ifs with h
  · constructor
    · intro h1
      left
      omega
    · rintro (h1 | ⟨h1, _⟩)
      · omega
      · exact absurd h1.symm h
  · push_neg at h
    constructor
    · intro h1
      right
      exact ⟨h.symm, by omega⟩
    · rintro (h1 | ⟨_, h2⟩)
      · omega
      · omega

theorem rowLE_total (a b : Row) : rowLE a b ∨ rowLE b a := by
  rw [rowLE_iff, rowLE_iff]
  omega

theorem rowLE_trans (a b c : Row) (h1 : rowLE a b) (h2 : rowLE b c) : rowLE a c := by
  rw [rowLE_iff] at h1 h2 ⊢
  omega

theorem sortRows_sorted (rows : List Row) : (sortRows rows).Pairwise rowLE :=
  @List.sorted_insertionSort Row rowLE rowLE.decidable ⟨rowLE_total⟩ ⟨rowLE_trans⟩ rows

theorem sortRows_perm (rows : List Row) : (sortRows rows).Perm rows :=
  @List.perm_insertionSort Row rowLE rowLE.decidable rows

/-- C17. The sorted scoreboard is a permutation of the rows, and whenever a row stands
before another one in it, it has a higher total score, or the same total score and a total
penalty that is not higher; hence a row with a higher score, or an equal score and a lower
penalty, never stands after the other. The scoreboard passed to the template is this sorted
list with the penalty text filled in. -/
theorem sortRows_ranked (rows : List Row) :
    (sortRows rows).Perm rows ∧
    (sortRows rows).Pairwise (fun a b => a.totalScore > b.totalScore ∨
      (a.totalScore = b.totalScore ∧ a.totalPenaltySeconds ≤ b.totalPenaltySeconds)) ∧
    (sortRows rows).Pairwise (fun a b => ¬ (b.totalScore > a.totalScore ∨
      (b.totalScore = a.totalScore ∧ b.totalPenaltySeconds < a.totalPenaltySeconds))) ∧
    (∀ (start_ts : Int) (problems : List Problem) (users : List Nat)
      (query : Nat → Problem → List Submission),
      (scoreboardOf start_ts problems users query).map
          (fun r => (r.user, r.totalScore, r.totalPenaltySeconds, r.perProblemCells)) =
        (sortRows (users.map (rowOf start_ts problems query))).map
          (fun r => (r.user, r.totalScore, r.totalPenaltySeconds, r.perProblemCells))) := by
  refine ⟨sortRows_perm rows, ?_, ?_, ?_⟩
  · exact (sortRows_sorted rows).imp (fun {a b} h => (rowLE_iff a b).mp h)
  · refine (sortRows_sorted rows).imp (fun {a b} h => ?_)
    have := (rowLE_iff a b).mp h
    omega
  · intro start_ts problems users query
    simp [scoreboardOf, List.map_map, Function.comp]

/-- C17, instance: Y (200, 1500 s), X (200, 1000 s), Z (300, 9999 s) are ranked Z, X, Y. -/
theorem sortRows_ranked_witness :
    (sortRows [⟨1, 200, 1500, [], none⟩, ⟨2, 200, 1000, [], none⟩,
        ⟨3, 300, 9999, [], none⟩]).Perm
      [⟨1, 200, 1500, [], none⟩, ⟨2, 200, 1000, [], none⟩, ⟨3, 300, 9999, [], none⟩] ∧
    sortRows [⟨1, 200, 1500, [], none⟩, ⟨2, 200, 1000, [], none⟩, ⟨3, 300, 9999, [], none⟩] =
      [⟨3, 300, 9999, [], none⟩, ⟨2, 200, 1000, [], none⟩, ⟨1, 200, 1500, [], none⟩] :=
  ⟨(sortRows_ranked [⟨1, 200, 1500, [], none⟩, ⟨2, 200, 1000, [], none⟩,
      ⟨3, 300, 9999, [], none⟩]).1, by decide⟩

/-! ## C19: rendering of the penalty -/

theorem digitChar_lt_ten :
    ∀ d, d < 10 → digitValue (Nat.digitChar d) = d ∧ Nat.digitChar d ≠ ':' := by
  decide

theorem toDigitsCore_acc (f n : Nat) (acc : List Char) :
    Nat.toDigitsCore 10 f n acc = Nat.toDigitsCore 10 f n [] ++ acc := by
  induction f generalizing n acc with
  | zero => simp [Nat.toDigitsCore]
  | succ f ih =>
    simp only [Nat.toDigitsCore]
    split_ifs with h
    · simp
    · rw [ih (n / 10) (Nat.digitChar (n % 10) :: acc), ih (n / 10) [Nat.digitChar (n % 10)]]
      simp

theorem decimalValue_concat (l : JsString) (c : Char) :
    decimalValue (l ++ [c]) = 10 * decimalValue l + digitValue c := by
  simp [decimalValue, List.foldl_append]

theorem toDigitsCore_value (f n : Nat) (h : n < f) :
    decimalValue (Nat.toDigitsCore 10 f n []) = n ∧
    ∀ c ∈ Nat.toDigitsCore 10 f n [], c ≠ ':' := by
  induction f generalizing n with
  | zero => omega
  | succ f ih =>
    have hd := digitChar_lt_ten (n % 10) (Nat.mod_lt n (by decide))
    simp only [Nat.toDigitsCore]
    split_ifs with h0
    · constructor
      · simp only [decimalValue, List.foldl_cons, List.foldl_nil, Nat.mul_zero, Nat.zero_add]
        rw [hd.1]
        omega
      · intro c hc
        simp only [List.mem_singleton] at hc
        rw [hc]
        exact hd.2
    · have hlt : n / 10 < f := by omega
      obtain ⟨ih1, ih2⟩ := ih (n / 10) hlt
      rw [toDigitsCore_acc]
      constructor
      · rw [decimalValue_concat, ih1, hd.1]
        omega
      · intro c hc
        rw [List.mem_append, List.mem_singleton] at hc
        rcases hc with hc | hc
        · exact ih2 c hc
        · rw [hc]
          exact hd.2

theorem jsNatStr_value (n : Nat) :
    decimalValue (jsNatStr n) = n ∧ ∀ c ∈ jsNatStr n, c ≠ ':' :=
  toDigitsCore_value (n + 1) n (Nat.lt_succ_self n)

theorem decimalValue_zeros (k : Nat) (l : JsString) :
    decimalValue (List.replicate k '0' ++ l) = decimalValue l := by
  induction k with
  | zero => rfl
  | succ k ih =>
    have h : decimalValue (List.replicate (k + 1) '0' ++ l) =
        decimalValue (List.replicate k '0' ++ l) := by
      have hz : ∀ m : Nat, List.foldl (fun acc c => 10 * acc + digitValue c) 0
          (List.replicate m '0') = 0 := by
        intro m
        induction m with
        | zero => rfl
        | succ m ihm =>
          rw [List.replicate_succ, List.foldl_cons]
          exact ihm
      unfold decimalValue
      rw [List.foldl_append, List.foldl_append, hz, hz]
    rw [h, ih]

theorem padStart2_value (n : Nat) :
    decimalValue (padStart2 (jsNatStr n)) = n ∧ ∀ c ∈ padStart2 (jsNatStr n), c ≠ ':' := by
  obtain ⟨h1, h2⟩ := jsNatStr_value n
  unfold padStart2
  constructor
  · rw [decimalValue_zeros, h1]
  · intro c hc
    rw [List.mem_append] at hc
    rcases hc with hc | hc
    · rw [List.eq_of_mem_replicate hc]
      decide
    · exact h2 c hc

theorem penaltyDisplay_natCast (s : Nat) :
    penaltyDisplay (s : Int) =
      padStart2 (jsNatStr (s / 60)) ++ ':' :: padStart2 (jsNatStr (s % 60)) := by
  have h1 : (if (s : Int) ≠ 0 then (s : Int) else 0) = (s : Int) := by
    split_ifs with h
    · rfl
    · push_neg at h
      exact h.symm
  have h2 : (s : Int) / 60 = ((s / 60 : Nat) : Int) := rfl
  have h3 : Int.tmod (s : Int) 60 = ((s % 60 : Nat) : Int) := rfl
  have h4 : ∀ m : Nat, jsIntStr (m : Int) = jsNatStr m := by
    intro m
    unfold jsIntStr
    rw [if_neg (by omega), Int.natAbs_ofNat]
  unfold penaltyDisplay
  simp only [h1, h2, h3, h4]
  rw [List.append_assoc]
  rfl

theorem readPenalty_display (s : Nat) : readPenalty (penaltyDisplay (s : Int)) = s := by
  rw [penaltyDisplay_natCast]
  obtain ⟨a1, a2⟩ := padStart2_value (s / 60)
  obtain ⟨b1, _⟩ := padStart2_value (s % 60)
  have hp : ∀ c ∈ padStart2 (jsNatStr (s / 60)), (c != ':') = true := by
    intro c hc
    simpa using a2 c hc
  unfold readPenalty
  rw [List.takeWhile_append_of_pos hp, List.dropWhile_append_of_pos hp]
  simp only [List.takeWhile_cons, bne_self_eq_false, Bool.false_eq_true, if_false,
    List.append_nil, List.dropWhile_cons, List.tail_cons]
  rw [a1, b1]
  omega

/-- C19. For a non-negative integer total penalty `s` in seconds, the text is the decimal of
`s / 60` (rounded down), then a colon, then the decimal of `s % 60`, each padded on the left
with zeros to at least two characters; the minutes are not reduced modulo 60; the two
numbers can be read back from the text, so distinct values of `s` give distinct texts. -/
theorem penaltyDisplay_spec (s : Nat) :
    penaltyDisplay (s : Int) =
      padStart2 (jsNatStr (s / 60)) ++ ':' :: padStart2 (jsNatStr (s % 60)) ∧
    decimalValue (jsNatStr (s / 60)) = s / 60 ∧
    decimalValue (jsNatStr (s % 60)) = s % 60 ∧
    2 ≤ (padStart2 (jsNatStr (s / 60))).length ∧
    2 ≤ (padStart2 (jsNatStr (s % 60))).length ∧
    (∀ t : Nat, penaltyDisplay (t : Int) = penaltyDisplay (s : Int) → t = s) ∧
    penaltyDisplay 1210 = "20:10".toList ∧ penaltyDisplay 3600 = "60:00".toList := by
  have hlen : ∀ l : JsString, 2 ≤ (padStart2 l).length := by
    intro l
    unfold padStart2
    rw [List.length_append, List.length_replicate]
    omega
  refine ⟨penaltyDisplay_natCast s, (jsNatStr_value _).1, (jsNatStr_value _).1, hlen _, hlen _,
    ?_, by decide, by decide⟩
  intro t h
  have := congrArg readPenalty h
  rwa [readPenalty_display, readPenalty_display] at this

/-- C19, instance: 59 s renders as `00:59` and it is the only value rendered so. -/
theorem penaltyDisplay_spec_witness :
    penaltyDisplay 59 = "00:59".toList ∧
    (∀ t : Nat, penaltyDisplay (t : Int) = penaltyDisplay ((59 : Nat) : Int) → t = 59) :=
  ⟨(penaltyDisplay_spec 59).1.trans (by decide), (penaltyDisplay_spec 59).2.2.2.2.2.1⟩


/-! ## C20: pairing of fixture files -/

theorem map_fst_map_of_fst_eq (l : PairMap)
    (g : JsString × MapEntry → JsString × MapEntry) (hg : ∀ e, (g e).1 = e.1) :
    (l.map g).map Prod.fst = l.map Prod.fst := by
  rw [List.map_map]
  apply List.map_congr_left
  intro e _
  exact hg e

theorem mapStep_keys (m : PairMap) (f : JsString) :
    (mapStep m f).map Prod.fst =
      if mapHas m (nameNoExt f) then m.map Prod.fst else m.map Prod.fst ++ [nameNoExt f] := by
  unfold mapStep
  refine (map_fst_map_of_fst_eq _ _ ?_).trans ?_
  · intro e
    dsimp only
    split_ifs <;> rfl
  · split_ifs
    · rfl
    · rw [List.map_append]
      rfl

theorem mapHas_iff (m : PairMap) (k : JsString) :
    mapHas m k = true ↔ k ∈ m.map Prod.fst := by
  simp only [mapHas, List.any_eq_true, List.mem_map, beq_iff_eq]

theorem candidates_append (files : List JsString) (f k : JsString) :
    inputCandidates (files ++ [f]) k =
      inputCandidates files k ++ (if nameNoExt f = k ∧ isInputFile f = true then [f] else []) ∧
    outputCandidates (files ++ [f]) k =
      outputCandidates files k ++
        (if nameNoExt f = k ∧ isOutputFile f = true then [f] else []) := by
  unfold inputCandidates outputCandidates
  constructor
  · rw [List.filter_append]
    congr 1
    by_cases h : nameNoExt f = k ∧ isInputFile f = true
    · simp [h.1, h.2]
    · rw [if_neg h]
      rw [List.filter_eq_nil_iff]
      intro x hx
      rw [List.mem_singleton] at hx
      subst hx
      simpa using h
  · rw [List.filter_append]
    congr 1
    by_cases h : nameNoExt f = k ∧ isOutputFile f = true
    · simp [h.1, h.2]
    · rw [if_neg h]
      rw [List.filter_eq_nil_iff]
      intro x hx
      rw [List.mem_singleton] at hx
      subst hx
      simpa using h

theorem candidates_nil_of_not_key (files : List JsString) (k : JsString)
    (h : ∀ g ∈ files, nameNoExt g ≠ k) :
    inputCandidates files k = [] ∧ outputCandidates files k = [] := by
  unfold inputCandidates outputCandidates
  constructor
  · rw [List.filter_eq_nil_iff]
    intro g hg
    simp [h g hg]
  · rw [List.filter_eq_nil_iff]
    intro g hg
    simp [h g hg]

theorem mapStep_inv (files : List JsString) (m : PairMap) (f : JsString)
    (h1 : (m.map Prod.fst).Nodup)
    (h2 : ∀ e ∈ m, e.2.inputs = inputCandidates files e.1 ∧
      e.2.outputs = outputCandidates files e.1)
    (h3 : ∀ g ∈ files, nameNoExt g ∈ m.map Prod.fst) :
    ((mapStep m f).map Prod.fst).Nodup ∧
    (∀ e ∈ mapStep m f, e.2.inputs = inputCandidates (files ++ [f]) e.1 ∧
      e.2.outputs = outputCandidates (files ++ [f]) e.1) ∧
    (∀ g ∈ files ++ [f], nameNoExt g ∈ (mapStep m f).map Prod.fst) := by
  have hkeys := mapStep_keys m f
  refine ⟨?_, ?_, ?_⟩
  · rw [hkeys]
    split_ifs with hh
    · exact h1
    · rw [mapHas_iff] at hh
      rw [List.nodup_append]
      refine ⟨h1, List.nodup_singleton _, ?_⟩
      intro a ha hb
      rw [List.mem_singleton] at hb
      subst hb
      exact hh ha
  · intro e' he'
    unfold mapStep at he'
    simp only [List.mem_map] at he'
    obtain ⟨e, he, rfl⟩ := he'
    have he2 : e.2.inputs = inputCandidates files e.1 ∧
        e.2.outputs = outputCandidates files e.1 := by
      split_ifs at he with hh
      · exact h2 e he
      · rw [List.mem_append, List.mem_singleton] at he
        rcases he with he | he
        · exact h2 e he
        · subst he
          rw [mapHas_iff] at hh
          have := candidates_nil_of_not_key files (nameNoExt f)
            (fun g hg hgk => hh (hgk ▸ h3 g hg))
          exact ⟨this.1.symm, this.2.symm⟩
    obtain ⟨ca, cb⟩ := candidates_append files f e.1
    by_cases hk : e.1 = nameNoExt f
    · rw [if_pos hk]
      simp only
      rw [ca, cb, he2.1, he2.2]
      constructor
      · by_cases hi : inputExts.contains (fileExt f) = true
        · have : isInputFile f = true := hi
          rw [if_pos hi, if_pos ⟨hk.symm, this⟩]
        · have : ¬ isInputFile f = true := hi
          rw [if_neg hi, if_neg (fun h => this h.2), List.append_nil]
      · by_cases hi : outputExts.contains (fileExt f) = true
        · have : isOutputFile f = true := hi
          rw [if_pos hi, if_pos ⟨hk.symm, this⟩]
        · have : ¬ isOutputFile f = true := hi
          rw [if_neg hi, if_neg (fun h => this h.2), List.append_nil]
    · rw [if_neg hk]
      rw [ca, cb, he2.1, he2.2]
      have hk2 : ¬ nameNoExt f = e.1 := fun h => hk h.symm
      rw [if_neg (fun h => hk2 h.1), if_neg (fun h => hk2 h.1), List.append_nil,
        List.append_nil]
      exact ⟨rfl, rfl⟩
  · intro g hg
    rw [hkeys]
    rw [List.mem_append, List.mem_singleton] at hg
    split_ifs with hh
    · rcases hg with hg | hg
      · exact h3 g hg
      · subst hg
        exact (mapHas_iff m _).mp hh
    · rw [List.mem_append, List.mem_singleton]
      rcases hg with hg | hg
      · exact Or.inl (h3 g hg)
      · subst hg
        exact Or.inr rfl

theorem buildMap_inv (files : List JsString) :
    ((files.foldl mapStep []).map Prod.fst).Nodup ∧
    (∀ e ∈ files.foldl mapStep [], e.2.inputs = inputCandidates files e.1 ∧
      e.2.outputs = outputCandidates files e.1) ∧
    (∀ g ∈ files, nameNoExt g ∈ (files.foldl mapStep []).map Prod.fst) := by
  induction files using List.reverseRecOn with
  | nil => simp
  | append_singleton fs f ih =>
    rw [List.foldl_append, List.foldl_cons, List.foldl_nil]
    exact mapStep_inv fs _ f ih.1 ih.2.1 ih.2.2

theorem filterMap_some_fun {α β : Type} (g : α → β) (l : List α) :
    l.filterMap (fun a => some (g a)) = l.map g := by
  induction l with
  | nil => rfl
  | cons a t ih => rw [List.filterMap_cons, List.map_cons, ih]

theorem count_eq_one_of_nodup (l : List JsString) (f : JsString) (hnd : l.Nodup)
    (hf : f ∈ l) : l.count f = 1 := by
  induction l with
  | nil => exact absurd hf (List.not_mem_nil f)
  | cons a t ih =>
    rw [List.nodup_cons] at hnd
    rw [List.count_cons]
    rcases List.mem_cons.mp hf with h | h
    · subst h
      rw [List.count_eq_zero_of_not_mem hnd.1]
      simp
    · have hne : a ≠ f := fun e => hnd.1 (e ▸ h)
      rw [ih hnd.2 h]
      simp [hne]

theorem pairsOfEntry_eq (key : JsString) (val : MapEntry) :
    pairsOfEntry key val =
      match val.outputs.head? with
      | some out =>
        if strTruthy out then val.inputs.map (fun inp => { key := key, input := inp, output := out })
        else []
      | none => [] := by
  unfold pairsOfEntry
  cases val.outputs.head? with
  | none => simp
  | some out =>
    simp only
    split_ifs with h
    · exact filterMap_some_fun _ _
    · induction val.inputs with
      | nil => rfl
      | cons a t ih => rw [List.filterMap_cons, ih]

theorem mem_pairsOfMap (m : PairMap) (p : Pair) :
    p ∈ pairsOfMap m ↔ ∃ e ∈ m, p ∈ pairsOfEntry e.1 e.2 := by
  induction m with
  | nil =>
    constructor
    · intro h
      exact absurd h (List.not_mem_nil p)
    · rintro ⟨e, he, _⟩
      exact absurd he (List.not_mem_nil e)
  | cons e rest ih =>
    rw [pairsOfMap, List.mem_append, ih]
    constructor
    · rintro (h | ⟨x, hx, hp⟩)
      · exact ⟨e, List.mem_cons_self e rest, h⟩
      · exact ⟨x, List.mem_cons_of_mem e hx, hp⟩
    · rintro ⟨x, hx, hp⟩
      rcases List.mem_cons.mp hx with h | h
      · left
        rw [← h]
        exact hp
      · right
        exact ⟨x, h, hp⟩

theorem isOutputFile_truthy (g : JsString) (h : isOutputFile g = true) : strTruthy g = true := by
  cases g with
  | nil => exact absurd h (by decide)
  | cons c t => rfl

theorem head_outputCandidates (files : List JsString) (k out : JsString)
    (h : (outputCandidates files k).head? = some out) :
    out ∈ files ∧ nameNoExt out = k ∧ isOutputFile out = true := by
  have hm : out ∈ outputCandidates files k := List.mem_of_mem_head? h
  unfold outputCandidates at hm
  rw [List.mem_filter] at hm
  simpa using hm

theorem mem_inputCandidates (files : List JsString) (k inp : JsString) :
    inp ∈ inputCandidates files k ↔ inp ∈ files ∧ nameNoExt inp = k ∧ isInputFile inp = true := by
  unfold inputCandidates
  rw [List.mem_filter]
  simp

theorem count_inputCandidates (files : List JsString) (k f : JsString) :
    (inputCandidates files k).count f =
      if nameNoExt f = k ∧ isInputFile f = true then files.count f else 0 := by
  split_ifs with h
  · unfold inputCandidates
    exact List.count_filter (by simp [h.1, h.2])
  · apply List.count_eq_zero_of_not_mem
    intro hm
    exact h ((mem_inputCandidates files k f).mp hm).2

theorem count_pairsOfEntry (files : List JsString) (k f : JsString) (val : MapEntry)
    (hi : val.inputs = inputCandidates files k) (ho : val.outputs = outputCandidates files k) :
    ((pairsOfEntry k val).map Pair.input).count f =
      if nameNoExt f = k ∧ isInputFile f = true ∧ outputCandidates files k ≠ []
      then files.count f else 0 := by
  rw [pairsOfEntry_eq, ho]
  cases hh : (outputCandidates files k).head? with
  | none =>
    have : outputCandidates files k = [] := List.head?_eq_none_iff.mp hh
    simp [this]
  | some out =>
    have hne : outputCandidates files k ≠ [] := by
      intro h0
      rw [h0] at hh
      exact Option.noConfusion hh
    have ht := isOutputFile_truthy out (head_outputCandidates files k out hh).2.2
    simp only [ht, if_true, List.map_map]
    have hid : (Pair.input ∘ fun inp : JsString =>
        ({ key := k, input := inp, output := out } : Pair)) = id := rfl
    rw [hid, List.map_id, hi, count_inputCandidates]
    by_cases hc : nameNoExt f = k ∧ isInputFile f = true
    · rw [if_pos hc, if_pos ⟨hc.1, hc.2, hne⟩]
    · rw [if_neg hc, if_neg (fun h => hc ⟨h.1, h.2.1⟩)]

theorem count_pairsOfMap (files : List JsString) (f : JsString) (m : PairMap)
    (h1 : (m.map Prod.fst).Nodup)
    (h2 : ∀ e ∈ m, e.2.inputs = inputCandidates files e.1 ∧
      e.2.outputs = outputCandidates files e.1) :
    ((pairsOfMap m).map Pair.input).count f =
      if nameNoExt f ∈ m.map Prod.fst ∧ isInputFile f = true ∧
        outputCandidates files (nameNoExt f) ≠ []
      then files.count f else 0 := by
  induction m with
  | nil => simp [pairsOfMap]
  | cons e rest ih =>
    rw [List.map_cons, List.nodup_cons] at h1
    have he := h2 e (List.mem_cons_self e rest)
    have ihr := ih h1.2 (fun x hx => h2 x (List.mem_cons_of_mem e hx))
    rw [pairsOfMap, List.map_append, List.count_append,
      count_pairsOfEntry files e.1 f e.2 he.1 he.2, ihr]
    by_cases hk : nameNoExt f = e.1
    · have hnot : nameNoExt f ∉ rest.map Prod.fst := hk ▸ h1.1
      have hmem : nameNoExt f ∈ List.map Prod.fst (e :: rest) := by
        rw [List.map_cons, hk]
        exact List.mem_cons_self _ _
      have b : ¬ (nameNoExt f ∈ rest.map Prod.fst ∧ isInputFile f = true ∧
          outputCandidates files (nameNoExt f) ≠ []) := fun h => hnot h.1
      rw [if_neg b, Nat.add_zero]
      by_cases hc : isInputFile f = true ∧ outputCandidates files (nameNoExt f) ≠ []
      · have a : nameNoExt f = e.1 ∧ isInputFile f = true ∧
            outputCandidates files e.1 ≠ [] := ⟨hk, hc.1, hk ▸ hc.2⟩
        have c : nameNoExt f ∈ List.map Prod.fst (e :: rest) ∧ isInputFile f = true ∧
            outputCandidates files (nameNoExt f) ≠ [] := ⟨hmem, hc⟩
        rw [if_pos a, if_pos c]
      · have a : ¬ (nameNoExt f = e.1 ∧ isInputFile f = true ∧
            outputCandidates files e.1 ≠ []) := fun h => hc ⟨h.2.1, hk ▸ h.2.2⟩
        have c : ¬ (nameNoExt f ∈ List.map Prod.fst (e :: rest) ∧ isInputFile f = true ∧
            outputCandidates files (nameNoExt f) ≠ []) := fun h => hc h.2
        rw [if_neg a, if_neg c]
    · have a : ¬ (nameNoExt f = e.1 ∧ isInputFile f = true ∧
          outputCandidates files e.1 ≠ []) := fun h => hk h.1
      rw [if_neg a, Nat.zero_add]
      have hiff : nameNoExt f ∈ List.map Prod.fst (e :: rest) ↔
          nameNoExt f ∈ rest.map Prod.fst := by
        rw [List.map_cons, List.mem_cons]
        constructor
        · rintro (h | h)
          · exact absurd h hk
          · exact h
        · exact Or.inr
      simp only [hiff]

/-- C20 as stated fails: in the list `a.in`, `a.in`, `a.out` the input candidate `a.in`, whose
stem has the output candidate `a.out`, is the input of two pairs, not of exactly one. -/
theorem matchPairs_duplicate_input :
    matchPairs ["a.in".toList, "a.in".toList, "a.out".toList] =
      [{ key := "a".toList, input := "a.in".toList, output := "a.out".toList },
       { key := "a".toList, input := "a.in".toList, output := "a.out".toList }] ∧
    isInputFile "a.in".toList = true ∧ isOutputFile "a.out".toList = true ∧
    nameNoExt "a.out".toList = nameNoExt "a.in".toList ∧
    ((matchPairs ["a.in".toList, "a.in".toList, "a.out".toList]).map Pair.input).count
      "a.in".toList = 2 := by
  decide

/-- C20, amended. For every list of file paths: every pair returned by `matchPairs` has as
input a file of the list with a recognised input extension and as output a file of the list
with a recognised output extension, both with the stem of the pair, the output being the
first output candidate of that stem in list order; and every input candidate whose stem has
an output candidate is the input of exactly as many pairs as it occurs in the list, hence
of exactly one pair when the paths of the list are distinct. -/
theorem matchPairs_spec (files : List JsString) :
    (∀ p ∈ matchPairs files,
      p.input ∈ files ∧ isInputFile p.input = true ∧
      p.output ∈ files ∧ isOutputFile p.output = true ∧
      nameNoExt p.input = p.key ∧ nameNoExt p.output = p.key ∧
      (outputCandidates files p.key).head? = some p.output) ∧
    (∀ f ∈ files, isInputFile f = true →
      (∃ g ∈ files, isOutputFile g = true ∧ nameNoExt g = nameNoExt f) →
      ((matchPairs files).map Pair.input).count f = files.count f) ∧
    (files.Nodup → ∀ f ∈ files, isInputFile f = true →
      (∃ g ∈ files, isOutputFile g = true ∧ nameNoExt g = nameNoExt f) →
      ((matchPairs files).map Pair.input).count f = 1) := by
  obtain ⟨i1, i2, i3⟩ := buildMap_inv files
  have hcount : ∀ f ∈ files, isInputFile f = true →
      (∃ g ∈ files, isOutputFile g = true ∧ nameNoExt g = nameNoExt f) →
      ((matchPairs files).map Pair.input).count f = files.count f := by
    intro f hf hin hex
    obtain ⟨g, hg, hgo, hgk⟩ := hex
    have hne : outputCandidates files (nameNoExt f) ≠ [] := by
      apply List.ne_nil_of_mem (a := g)
      unfold outputCandidates
      rw [List.mem_filter]
      exact ⟨hg, by simp [hgk, hgo]⟩
    unfold matchPairs
    rw [count_pairsOfMap files f _ i1 i2, if_pos ⟨i3 f hf, hin, hne⟩]
  refine ⟨?_, hcount, ?_⟩
  · intro p hp
    unfold matchPairs at hp
    rw [mem_pairsOfMap] at hp
    obtain ⟨e, he, hpe⟩ := hp
    obtain ⟨hi, ho⟩ := i2 e he
    rw [pairsOfEntry_eq, ho] at hpe
    cases hh : (outputCandidates files e.1).head? with
    | none =>
      rw [hh] at hpe
      exact absurd hpe (List.not_mem_nil p)
    | some out =>
      rw [hh] at hpe
      simp only at hpe
      split_ifs at hpe with ht
      · rw [List.mem_map] at hpe
        obtain ⟨inp, hinp, rfl⟩ := hpe
        rw [hi, mem_inputCandidates] at hinp
        obtain ⟨o1, o2, o3⟩ := head_outputCandidates files e.1 out hh
        exact ⟨hinp.1, hinp.2.2, o1, o3, hinp.2.1, o2, hh⟩
      · exact absurd hpe (List.not_mem_nil p)
  · intro hnd f hf hin hex
    rw [hcount f hf hin hex]
    exact count_eq_one_of_nodup files f hnd hf

/-- C20, instance: in the list `a.in`, `a.out`, `a.ans` the input `a.in` is the input of
exactly one pair. -/
theorem matchPairs_spec_witness :
    ((matchPairs ["a.in".toList, "a.out".toList, "a.ans".toList]).map Pair.input).count
      "a.in".toList = 1 :=
  (matchPairs_spec ["a.in".toList, "a.out".toList, "a.ans".toList]).2.2 (by decide)
    "a.in".toList (by decide) (by decide) ⟨"a.out".toList, by decide, by decide, by decide⟩


/-! ## C21: a `.txt` file is paired with itself -/

theorem txt_is_both (f : JsString) (h : fileExt f = ".txt".toList) :
    isInputFile f = true ∧ isOutputFile f = true := by
  unfold isInputFile isOutputFile
  rw [h]
  exact ⟨by decide, by decide⟩

theorem mapStep_nil_txt (f : JsString) (h : fileExt f = ".txt".toList) :
    mapStep [] f = [(nameNoExt f, { inputs := [f], outputs := [f] })] := by
  unfold mapStep
  have h1 : inputExts.contains (fileExt f) = true := (txt_is_both f h).1
  have h2 : outputExts.contains (fileExt f) = true := (txt_is_both f h).2
  have h3 : mapHas [] (nameNoExt f) = false := rfl
  simp only [h3, Bool.false_eq_true, if_false, List.nil_append, List.map_cons, List.map_nil,
    if_true, h1, h2]

/-- C21. A file whose extension is `.txt` (in any case) has a recognised input extension and
a recognised output extension, so in every list that contains it, it is an input candidate
and an output candidate of its stem; for the list made of such a file alone, `matchPairs`
returns exactly one pair, whose input and output are that file; for the list `a.txt` this
is the pair with key `a`, input `a.txt` and output `a.txt`. -/
theorem txt_pairs_with_itself (f : JsString) (h : fileExt f = ".txt".toList) :
    isInputFile f = true ∧ isOutputFile f = true ∧
    (∀ files : List JsString, f ∈ files →
      f ∈ inputCandidates files (nameNoExt f) ∧ f ∈ outputCandidates files (nameNoExt f)) ∧
    matchPairs [f] = [{ key := nameNoExt f, input := f, output := f }] ∧
    matchPairs ["a.txt".toList] =
      [{ key := "a".toList, input := "a.txt".toList, output := "a.txt".toList }] := by
  obtain ⟨hi, ho⟩ := txt_is_both f h
  refine ⟨hi, ho, ?_, ?_, by decide⟩
  · intro files hf
    unfold inputCandidates outputCandidates
    rw [List.mem_filter, List.mem_filter]
    exact ⟨⟨hf, by simp [hi]⟩, ⟨hf, by simp [ho]⟩⟩
  · have ht : strTruthy f = true := isOutputFile_truthy f ho
    unfold matchPairs
    rw [List.foldl_cons, List.foldl_nil, mapStep_nil_txt f h]
    unfold pairsOfMap pairsOfMap
    rw [pairsOfEntry_eq]
    simp only [List.head?_cons, ht, if_true, List.map_cons, List.map_nil, List.append_nil]

/-- C21, instance: the single file `/data/p1/sample.TXT` is paired with itself under the
stem `sample`. -/
theorem txt_pairs_with_itself_witness :
    matchPairs ["/data/p1/sample.TXT".toList] =
      [{ key := "sample".toList, input := "/data/p1/sample.TXT".toList,
         output := "/data/p1/sample.TXT".toList }] :=
  (txt_pairs_with_itself "/data/p1/sample.TXT".toList (by decide)).2.2.2.1

/-! ## C22: only compile errors -/

/-- C22. When a (contestant, problem) pair has at least one submission and all its
submissions are compile errors, the cell pushed is `tried_no_ac` with tries 0 and score 0,
and the total score and the total penalty are unchanged; this cell differs from the
`no_submit` cell pushed when there is no submission. -/
theorem all_compile_errors_cell (start_ts : Int) (st : RowState) (p : Problem)
    (subs : List Submission) (hne : subs ≠ [])
    (hall : ∀ s ∈ subs, s.compile_error = true) :
    problemStep start_ts st p subs =
      { st with perProblemCells := st.perProblemCells ++
          [⟨"(TRIES)".toList, 0, 0, .tried_no_ac⟩] } ∧
    problemStep start_ts st p subs ≠ problemStep start_ts st p [] ∧
    (problemStep start_ts st p []).perProblemCells =
      st.perProblemCells ++ [⟨"-".toList, 0, 0, .no_submit⟩] := by
  have hf : firstAccepted subs = none := by
    unfold firstAccepted
    rw [List.find?_eq_none]
    intro s hs
    simp [isAccepted, hall s hs]
  have hz : subs.filter isNonCE = [] := by
    rw [List.filter_eq_nil_iff]
    intro s hs
    simp [isNonCE, hall s hs]
  have h1 : problemStep start_ts st p subs =
      { st with perProblemCells := st.perProblemCells ++
          [⟨"(TRIES)".toList, 0, 0, .tried_no_ac⟩] } := by
    rw [problemStep_eq]
    simp [cellOf, hne, hf, hz, specPenalty]
  refine ⟨h1, ?_, rfl⟩
  rw [h1]
  intro hcon
  have hc := congrArg RowState.perProblemCells hcon
  have hc2 : st.perProblemCells ++ [(⟨"(TRIES)".toList, 0, 0, .tried_no_ac⟩ : Cell)] =
      st.perProblemCells ++ [⟨"-".toList, 0, 0, .no_submit⟩] := hc
  have hc3 := List.append_cancel_left hc2
  exact absurd hc3 (by decide)

/-- C22, instance: two compile errors give the cell `tried_no_ac` with tries 0. -/
theorem all_compile_errors_cell_witness :
    problemStep 0 RowState.init ⟨1, 100⟩ [⟨true, .CE, 4000⟩, ⟨true, .CE, 9000⟩] =
      { totalScore := 0, totalPenaltySeconds := 0,
        perProblemCells := [⟨"(TRIES)".toList, 0, 0, .tried_no_ac⟩] } :=
  (all_compile_errors_cell 0 RowState.init ⟨1, 100⟩ [⟨true, .CE, 4000⟩, ⟨true, .CE, 9000⟩]
    (by decide) (by decide)).1


end LocalOJ
